import Mathlib

/-!
Verification of the `mavin_fetcher` core engine: a shallow embedding of its
filename parser, occurrence index builder, fetch engine, labeling engine and
B-area CSV summarizer, with theorems settling the specification claims.

Modelling conventions:
* Python strings are Lean `String`s; the Python string primitives used by the
  code (`lower`, `upper`, `strip`, `split`, `join`, `endswith`, `isdigit`,
  substring containment, lexicographic comparison) are modelled structurally
  over the character list `String.data` (ASCII semantics), so that every
  definition evaluates by kernel reduction.
* Filesystem listings are passed in explicitly (a directory is a name plus a
  list of entry names, in arbitrary on-disk order); globbing is modelled
  case-sensitively (POSIX `Path.glob` semantics).
* Python `dict`s (insertion-ordered) are association lists; assignment
  replaces in place or appends at the end, exactly as CPython does.
-/

namespace MavinFetcher

/-! ## Python string primitives -/

/-- Python `s.isdigit()` over ASCII: nonempty and all characters digits. -/
def isDigits (s : String) : Bool :=
  !s.data.isEmpty && s.data.all Char.isDigit

/-- ASCII lower-casing of one character. -/
def pyLowerCh (c : Char) : Char :=
  if 'A' ≤ c ∧ c ≤ 'Z' then Char.ofNat (c.toNat + 32) else c

/-- ASCII upper-casing of one character. -/
def pyUpperCh (c : Char) : Char :=
  if 'a' ≤ c ∧ c ≤ 'z' then Char.ofNat (c.toNat - 32) else c

/-- Python `s.lower()` (ASCII). -/
def pyLower (s : String) : String := ⟨s.data.map pyLowerCh⟩

/-- Python `s.upper()` (ASCII). -/
def pyUpper (s : String) : String := ⟨s.data.map pyUpperCh⟩

/-- ASCII whitespace, as stripped by Python `str.strip()`. -/
def pySpaceCh (c : Char) : Bool :=
  c = ' ' || c = '\t' || c = '\n' || c = '\r' || c = '\x0b' || c = '\x0c'

/-- Python `s.strip()`. -/
def pyStrip (s : String) : String :=
  ⟨((s.data.dropWhile pySpaceCh).reverse.dropWhile pySpaceCh).reverse⟩

/-- `leadMatch pat l`: `pat` occurs at the very start of `l`. -/
def leadMatch : List Char → List Char → Bool
  | [], _ => true
  | _ :: _, [] => false
  | p :: ps, c :: cs => p == c && leadMatch ps cs

/-- `hasSubList pat l`: `pat` occurs contiguously somewhere in `l`. -/
def hasSubList (pat : List Char) : List Char → Bool
  | [] => leadMatch pat []
  | c :: cs => leadMatch pat (c :: cs) || hasSubList pat cs

/-- Python `pat in s` (substring containment). -/
def hasSub (s pat : String) : Bool :=
  hasSubList pat.data s.data

/-- Python `s.endswith(suf)`. -/
def pyEndsWith (s suf : String) : Bool :=
  leadMatch suf.data.reverse s.data.reverse

/-- Split a character list at every occurrence of `c`
(Python `str.split(c)` semantics: `"" ↦ [""]`, separators at the ends
produce empty fields). -/
def splitChL (c : Char) : List Char → List (List Char)
  | [] => [[]]
  | a :: t =>
    if a = c then [] :: splitChL c t
    else
      match splitChL c t with
      | h :: r => (a :: h) :: r
      | [] => [[a]]

/-- Python `s.split("_")`. -/
def pySplitUnder (s : String) : List String :=
  (splitChL '_' s.data).map String.mk

/-- Join character lists with `'_'` between them. -/
def joinUnderL : List (List Char) → List Char
  | [] => []
  | [x] => x
  | x :: xs => x ++ '_' :: joinUnderL xs

/-- Python `"_".join(l)`. -/
def pyJoinUnder (l : List String) : String :=
  ⟨joinUnderL (l.map String.data)⟩

/-- Drop the last `n` characters (Python `s[:-n]` for `0 < n ≤ len`). -/
def pyDropRight (s : String) (n : Nat) : String :=
  ⟨s.data.take (s.data.length - n)⟩

/-- Lexicographic `≤` on character lists by code point. -/
def lexLe : List Char → List Char → Bool
  | [], _ => true
  | _ :: _, [] => false
  | a :: as, b :: bs => if a = b then lexLe as bs else decide (a.toNat < b.toNat)

/-- Python `s <= t` on strings (code-point lexicographic). -/
def pyLe (s t : String) : Bool := lexLe s.data t.data

/-! ## FilenameParser (`filename_parser.py`) -/

/-- `ParsedImageName` from `filename_parser.py`. -/
structure ParsedImageName where
  cell_key : String
  region : String
  map_type : String
deriving Repr, DecidableEq

/-- The loop at `filename_parser.py:44-47`: find the first token equal to
`LOWER` or `UPPER`, returning the tokens before it, the token itself and the
tokens after it. -/
def findMarker : List String → Option (List String × String × List String)
  | [] => none
  | p :: t =>
    if p = "LOWER" ∨ p = "UPPER" then some ([], p, t)
    else
      match findMarker t with
      | some (pre, m, post) => some (p :: pre, m, post)
      | none => none

/-- The fallback window scan at `filename_parser.py:70-73`: first adjacent
pair `"B", <L|R>` in the token window. -/
def scanBW : List String → Option String
  | a :: b :: t =>
    if a = "B" ∧ (b = "L" ∨ b = "R") then some b else scanBW (b :: t)
  | _ => none

/-- Lines 56-73 of `filename_parser.py`: determine the side letter from the
marker token (`LOWER`/`UPPER`) and the tokens following it.  One numeric
token directly after the marker is skipped; then if the next token is
literally `"B"` the token after it must be `L`/`R` (no fallback is attempted
in that branch); otherwise the window `parts[idx : idx+6]` is scanned for the
first adjacent `"B", <L|R>` pair. -/
def sideFrom (marker : String) (post : List String) : Option String :=
  let rest2 : List String :=
    match post with
    | d :: t => if isDigits d then t else d :: t
    | [] => []
  match rest2 with
  | b :: t =>
    if b = "B" then
      match t with
      | s :: _ => if s = "L" ∨ s = "R" then some s else none
      | [] => none
    else scanBW ((marker :: post).take 6)
  | [] => scanBW ((marker :: post).take 6)

/-- Lines 40-85 of `filename_parser.py` applied to the already-split stem
tokens: locate the marker, extract the side, rebuild the region (dropping any
digit token), and derive the cell key from the tokens before the marker. -/
def parseStemTokens (parts : List String) (stem mt : String) :
    Option ParsedImageName :=
  match findMarker parts with
  | none => none
  | some (pre, marker, post) =>
    match sideFrom marker post with
    | none => none
    | some side =>
      let region := marker ++ "_B_" ++ side
      let ck := pyStrip (pyJoinUnder pre)
      some ⟨if ck = "" then stem else ck, region, mt⟩

/-- Line 28 of `filename_parser.py`: recognized image extensions. -/
def extOk (lower : String) : Bool :=
  pyEndsWith lower ".jpg" || pyEndsWith lower ".jpeg" || pyEndsWith lower ".png"

/-- Lines 31-37 of `filename_parser.py`: map type from the lower-cased
filename. -/
def mapTypeOf (lower : String) : Option String :=
  if hasSub lower "_sourcemap." then some "SourceMap"
  else if hasSub lower "_activemap." then some "ActiveMap"
  else none

/-- `path.stem` for a name that has passed the extension check: drop the
extension (the last dot of such a name starts its extension). -/
def stemOf (name : String) : String :=
  pyDropRight name (if pyEndsWith (pyLower name) ".jpeg" then 5 else 4)

/-- `parse_image_filename` from `filename_parser.py` (the path argument is
represented by its final component, the file name). -/
def parse_image_filename (name : String) : Option ParsedImageName :=
  let lower := pyLower name
  if extOk lower then
    match mapTypeOf lower with
    | some mt =>
      let stem := stemOf name
      parseStemTokens (pySplitUnder stem) stem mt
    | none => none
  else none

/-! ## OccurrenceIndexBuilder (`view_index.py`)

The builder is modelled over an explicit listing of the output root: a list
of `(class folder name, entry names)` pairs in arbitrary on-disk order (the
code sorts it itself).  `class_dir.glob ("*.jpg")` is the case-sensitive
suffix filter, in arbitrary on-disk order, so theorems quantify over the
order of both lists.  Stored artifact paths are represented by the file
name (the final path component), which is all the claims inspect. -/

/-- `normalize_class_folder` from `view_index.py:13-25`. -/
def normalize_class_folder (folder_name : String) : String :=
  let s := pyStrip folder_name
  match pySplitUnder s with
  | head :: r1 :: rest =>
    if isDigits head then pyUpper (pyStrip (pyJoinUnder (r1 :: rest)))
    else pyUpper (pyStrip s)
  | _ => pyUpper (pyStrip s)

/-- `OccurrenceItem` from `view_index.py:28-38`. -/
structure OccurrenceItem where
  class_folder : String
  class_key : String
  cell_key : String
  region : String
  source_path : Option String := none
  active_path : Option String := none
deriving Repr, DecidableEq

/-- Bucket key: `(folder, cell_key, region)` (`view_index.py:62`). -/
abbrev BKey := String × String × String

/-- Insertion-ordered association lists model Python dicts; `alookup` is
`d.get(k)`. -/
def alookup {α β : Type} [DecidableEq α] (l : List (α × β)) (k : α) :
    Option β :=
  (l.find? fun p => decide (p.1 = k)).map (·.2)

/-- Python dict assignment `m[k] = v`: replace in place if the key is
present (Python mutates the stored value in place), else append at the
end. -/
def assocSet {α β : Type} [DecidableEq α] (m : List (α × β)) (k : α)
    (v : β) : List (α × β) :=
  if (m.find? fun p => decide (p.1 = k)).isSome then
    m.map fun p => if p.1 = k then (k, v) else p
  else m ++ [(k, v)]

/-- The body of the file loop at `view_index.py:69-88` for one globbed
file. -/
def addFile (folder_name class_key : String)
    (b : List (BKey × OccurrenceItem)) (fname : String) :
    List (BKey × OccurrenceItem) :=
  match parse_image_filename fname with
  | none => b
  | some parsed =>
    let k : BKey := (folder_name, parsed.cell_key, parsed.region)
    let item :=
      match alookup b k with
      | some it => it
      | none =>
        { class_folder := folder_name, class_key := class_key,
          cell_key := parsed.cell_key, region := parsed.region }
    let item' :=
      if parsed.map_type = "SourceMap" then { item with source_path := some fname }
      else if parsed.map_type = "ActiveMap" then { item with active_path := some fname }
      else item
    assocSet b k item'

/-- `class_dir.glob ("*.jpg")` as a suffix filter on the entry names. -/
def globJpg (entries : List String) : List String :=
  entries.filter fun f => pyEndsWith f ".jpg"

/-- One iteration of the class-folder loop (`view_index.py:64-88`), bucket
component. -/
def processDir (b : List (BKey × OccurrenceItem))
    (dir : String × List String) : List (BKey × OccurrenceItem) :=
  (globJpg dir.2).foldl (addFile dir.1 (normalize_class_folder dir.1)) b

/-- `classes.setdefault(folder_name, []).append(item)`
(`view_index.py:91-92`). -/
def classAppend (m : List (String × List OccurrenceItem)) (k : String)
    (it : OccurrenceItem) : List (String × List OccurrenceItem) :=
  if (m.find? fun p => decide (p.1 = k)).isSome then
    m.map fun p => if p.1 = k then (p.1, p.2 ++ [it]) else p
  else m ++ [(k, [it])]

/-- Finalization loop at `view_index.py:91-92`: group the bucket's items by
folder name, in bucket insertion order. -/
def classesOf (bucket : List (BKey × OccurrenceItem)) :
    List (String × List OccurrenceItem) :=
  bucket.foldl (fun acc kv => classAppend acc kv.1.1 kv.2) []

/-- Sort key for `sorted([...])` over same-parent paths: the entry name
(code-point lexicographic, POSIX semantics). -/
def sortDirs (dirs : List (String × List String)) :
    List (String × List String) :=
  List.insertionSort (fun a b => pyLe a.1 b.1 = true) dirs

/-- Python tuple comparison `(cell_key, region) <= (cell_key, region)` used
by the per-class sort at `view_index.py:96`. -/
def itemLeB (a b : OccurrenceItem) : Bool :=
  if a.cell_key = b.cell_key then pyLe a.region b.region
  else pyLe a.cell_key b.cell_key

/-- The stable per-class sort at `view_index.py:94-96`. -/
def sortItems (l : List OccurrenceItem) : List OccurrenceItem :=
  List.insertionSort (fun a b => itemLeB a b = true) l

/-- `ViewIndex` from `view_index.py:41-50` (the inert `out_dir` field is
omitted). -/
structure ViewIndex where
  classes : List (String × List OccurrenceItem)
  class_key_to_folder : List (String × String)
deriving Repr, DecidableEq

/-- The bucket built by the loop at `view_index.py:64-88`. -/
def buildBucket (dirs : List (String × List String)) :
    List (BKey × OccurrenceItem) :=
  dirs.foldl processDir []

/-- The `class_key_to_folder` assignments of the same loop
(`view_index.py:66-67`); this component shares no state with the bucket, so
the single Python loop is modelled as two folds over the same sorted
listing. -/
def buildKeyToFolder (dirs : List (String × List String)) :
    List (String × String) :=
  dirs.foldl (fun m d => assocSet m (normalize_class_folder d.1) d.1) []

/-- `build_view_index` from `view_index.py:53-98` over the explicit listing
of an existing output root. -/
def build_view_index (dirs : List (String × List String)) : ViewIndex :=
  let sorted := sortDirs dirs
  { classes := (classesOf (buildBucket sorted)).map fun p => (p.1, sortItems p.2),
    class_key_to_folder := buildKeyToFolder sorted }

/-! ## LabelingEngine (`labeling/label_engine.py`)

Paths are component lists; the filesystem is a finite map from file paths to
opaque byte contents plus a set of directories.  `apply_label` and `undo`
return `none` where the Python code raises (`ValueError`,
`FileNotFoundError`, or a failing `shutil.move`). -/

/-- A filesystem path, as its list of components. -/
abbrev FPath := List String

/-- Filesystem state for the labeling engine. -/
structure LFS where
  files : List (FPath × Nat)
  dirs : List FPath
deriving Repr, DecidableEq

/-- Content of the file at `p`, if one exists. -/
def fileAt (fs : LFS) (p : FPath) : Option Nat :=
  (fs.files.find? fun q => decide (q.1 = p)).map (·.2)

/-- `p.exists()` (for file paths). -/
def fileExists (fs : LFS) (p : FPath) : Bool :=
  (fileAt fs p).isSome

/-- `p.unlink()`. -/
def unlink (fs : LFS) (p : FPath) : LFS :=
  { fs with files := fs.files.filter fun q => decide (q.1 ≠ p) }

/-- Create or overwrite the file at `p` with content `c`. -/
def setFile (fs : LFS) (p : FPath) (c : Nat) : LFS :=
  { fs with files := (unlink fs p).files ++ [(p, c)] }

/-- `p.mkdir(parents=True, exist_ok=True)` (one entry per directory path;
ancestors are not tracked separately, no claim inspects them). -/
def ensureDirL (fs : LFS) (d : FPath) : LFS :=
  if d ∈ fs.dirs then fs else { fs with dirs := fs.dirs ++ [d] }

/-- `shutil.move(a, b)` for files: fails if `a` does not exist. -/
def moveFile (fs : LFS) (a b : FPath) : Option LFS :=
  match fileAt fs a with
  | none => none
  | some c => some (setFile (unlink fs a) b c)

/-- `LabelAction` from `labeling/types.py`. -/
structure LabelAction where
  label : String
  class_folder : String
  cell_key : String
  region : String
  src_path : FPath
  dst_path : FPath
deriving Repr, DecidableEq

/-- The `OccurrenceItem` fields read by `apply_label`, with `source_path` as
a structured path into the modelled filesystem. -/
structure OccItemFS where
  class_folder : String
  cell_key : String
  region : String
  source_path : Option FPath
deriving Repr, DecidableEq

/-- `dest_dir_for` from `labeling/pathing.py`. -/
def dest_dir_for (human_root : FPath) (class_folder label : String) : FPath :=
  human_root ++ [class_folder, label]

/-- `src.name`: the final path component. -/
def lastName (p : FPath) : String := p.getLast?.getD ""

/-- `apply_label` from `labeling/label_engine.py:11-49`. -/
def apply_label (occ : OccItemFS) (label : String) (human_root : FPath)
    (fs : LFS) : Option (LabelAction × LFS) :=
  match occ.source_path with
  | none => none
  | some src =>
    if fileExists fs src then
      let ddir := dest_dir_for human_root occ.class_folder label
      let fs1 := ensureDirL fs ddir
      let dst := ddir ++ [lastName src]
      let fs2 := if fileExists fs1 dst then unlink fs1 dst else fs1
      match moveFile fs2 src dst with
      | some fs3 =>
        some ({ label := label, class_folder := occ.class_folder,
                cell_key := occ.cell_key, region := occ.region,
                src_path := src, dst_path := dst }, fs3)
      | none => none
    else none

/-- `undo` from `labeling/label_engine.py:52-70`. -/
def undo (a : LabelAction) (fs : LFS) : Option LFS :=
  if fileExists fs a.dst_path then
    let fs1 := ensureDirL fs a.src_path.dropLast
    let fs2 := if fileExists fs1 a.src_path then unlink fs1 a.src_path else fs1
    moveFile fs2 a.dst_path a.src_path
  else some fs

/-! ## FetchEngine (`engine_fetch.py`)

Per-day root resolution plus scanning is summarized by the day's input:
`none` when `find_crop_b_root` finds nothing, `some sr` for the day's
`ScanResult`.  The cancellation callback is a function of its invocation
count (the code polls a caller-supplied flag; indexing by poll number
captures every possible flag schedule).  The observational callbacks
(`log`/`progress`/`detail_progress`) are omitted.  The filesystem tracks
directory paths and destination file paths as flat strings. -/

/-- `ScanResult` from `scanner.py:11-18`. -/
structure ScanRes where
  files_by_class : List (String × List String)
  included_activemap_count : Nat
  missing_activemap_count : Nat
deriving Repr, DecidableEq

/-- `FetchStats` from `engine_fetch.py:18-25`. -/
structure FetchStats where
  total_copied : Nat
  total_overwritten : Nat
  missing_days : Nat
  active_included : Nat
  active_missing : Nat
  per_class_copied : List (String × Nat)
deriving Repr, DecidableEq

/-- Filesystem state for the fetch engine. -/
structure FFS where
  dirs : List String
  files : List String
deriving Repr, DecidableEq

/-- `_ensure_dir` from `engine_fetch.py:44-45`. -/
def ensureDirF (fs : FFS) (d : String) : FFS :=
  if d ∈ fs.dirs then fs else { fs with dirs := fs.dirs ++ [d] }

/-- Outcome of the pre-scan loop (`engine_fetch.py:79-98`). -/
structure Phase1Out where
  cancelled : Bool
  missing : Nat
  inc : Nat
  miss : Nat
  scanned : List ScanRes
  calls : Nat
deriving Repr, DecidableEq

/-- The pre-scan loop at `engine_fetch.py:79-98`: `k` counts `is_cancelled`
invocations, `m`/`i`/`x` accumulate missing days and activemap counters. -/
def phase1 (cancel : Nat → Bool) :
    List (Option ScanRes) → Nat → Nat → Nat → Nat → List ScanRes → Phase1Out
  | [], k, m, i, x, acc => ⟨false, m, i, x, acc, k⟩
  | d :: rest, k, m, i, x, acc =>
    if cancel k then ⟨true, m, i, x, acc, k⟩
    else
      match d with
      | none => phase1 cancel rest (k + 1) (m + 1) i x acc
      | some sr =>
        phase1 cancel rest (k + 1) m (i + sr.included_activemap_count)
          (x + sr.missing_activemap_count) (acc ++ [sr])

/-- `total_files` accumulation (`engine_fetch.py:97-98`). -/
def totalFilesOf (srs : List ScanRes) : Nat :=
  (srs.map fun sr => (sr.files_by_class.map fun c => c.2.length).sum).sum

/-- `per_class_copied[class_name] = per_class_copied.get(class_name, 0) + 1`. -/
def bumpClass (m : List (String × Nat)) (k : String) : List (String × Nat) :=
  if (m.find? fun p => decide (p.1 = k)).isSome then
    m.map fun p => if p.1 = k then (p.1, p.2 + 1) else p
  else m ++ [(k, 1)]

/-- Mutable state of the copy loop (`engine_fetch.py:110-113`): cancellation
call counter, copied/overwritten counters, per-class map, filesystem. -/
structure CopySt where
  calls : Nat
  copied : Nat
  overwritten : Nat
  per_class : List (String × Nat)
  fs : FFS
deriving Repr, DecidableEq

/-- The inner file loop (`engine_fetch.py:125-148`); `true` means the loop
was cancelled before copying the next file. -/
def copyFiles (cancel : Nat → Bool) (ddir cls : String) :
    List String → CopySt → Bool × CopySt
  | [], st => (false, st)
  | f :: rest, st =>
    if cancel st.calls then (true, st)
    else
      let dst := ddir ++ "/" ++ f
      let hit := dst ∈ st.fs.files
      copyFiles cancel ddir cls rest
        ⟨st.calls + 1, st.copied + 1,
         if hit then st.overwritten + 1 else st.overwritten,
         bumpClass st.per_class cls,
         { st.fs with files := if hit then st.fs.files else st.fs.files ++ [dst] }⟩

/-- The per-class loop (`engine_fetch.py:118-123`): empty file lists are
skipped before the class directory is created. -/
def copyClasses (cancel : Nat → Bool) (out_dir : String) :
    List (String × List String) → CopySt → Bool × CopySt
  | [], st => (false, st)
  | (cls, fl) :: rest, st =>
    if fl.isEmpty then copyClasses cancel out_dir rest st
    else
      let ddir := out_dir ++ "/" ++ cls
      let st1 := { st with fs := ensureDirF st.fs ddir }
      match copyFiles cancel ddir cls fl st1 with
      | (true, st2) => (true, st2)
      | (false, st2) => copyClasses cancel out_dir rest st2

/-- The outer copy loop over pre-scanned days (`engine_fetch.py:117`). -/
def copyScanned (cancel : Nat → Bool) (out_dir : String) :
    List ScanRes → CopySt → Bool × CopySt
  | [], st => (false, st)
  | sr :: rest, st =>
    match copyClasses cancel out_dir sr.files_by_class st with
    | (true, st2) => (true, st2)
    | (false, st2) => copyScanned cancel out_dir rest st2

/-- `fetch_images` from `engine_fetch.py:48-158`. -/
def fetch_images (days : List (Option ScanRes)) (out_dir : String)
    (cancel : Nat → Bool) (fs : FFS) : FetchStats × FFS :=
  let fs1 := ensureDirF fs out_dir
  let p := phase1 cancel days 0 0 0 0 []
  if p.cancelled then (⟨0, 0, p.missing, 0, 0, []⟩, fs1)
  else if totalFilesOf p.scanned = 0 then
    (⟨0, 0, p.missing, p.inc, p.miss, []⟩, fs1)
  else
    let st := (copyScanned cancel out_dir p.scanned ⟨p.calls, 0, 0, [], fs1⟩).2
    (⟨st.copied, st.overwritten, p.missing, p.inc, p.miss, st.per_class⟩, st.fs)

/-! ## CsvClassSummarizer (`b_area_summary.py`)

A row is the normalized column map produced by `iter_rows`
(`column name ↦ string value`); the input is the concatenation of all rows
of the given files.  Python's per-row `set` of classes is modelled as an
insertion-ordered deduplicated list (set iteration order only affects dict
key order, never any count). -/

/-- `REGIONS` from `b_area_summary.py:9`. -/
def REGIONS : List String := ["LOWER_B_L", "LOWER_B_R", "UPPER_B_L", "UPPER_B_R"]

/-- Python `s.startswith(pat)`. -/
def pyStartsWith (s pat : String) : Bool :=
  leadMatch pat.data s.data

/-- `normalize_class` from `b_area_summary.py:19-53`. -/
def normalize_class (name : String) : Option String :=
  if name = "" then none
  else
    let s0 := pyStrip name
    if s0 = "" then none
    else
      let s :=
        match pySplitUnder s0 with
        | head :: r1 :: rest =>
          if isDigits head then pyStrip (pyJoinUnder (r1 :: rest)) else s0
        | _ => s0
      let s_up := pyUpper s
      if s_up = "OK_ROI" ∨ s_up = "06_OK_ROI" then some "OK_ROI"
      else if pyStartsWith s_up "OK_" then none
      else if pyStartsWith s_up "NG_" then some s_up
      else some s_up

/-- `(row.get(col) or "")`. -/
def rowGet (row : List (String × String)) (col : String) : String :=
  (alookup row col).getD ""

/-- Add to a Python set, modelled as a deduplicated list. -/
def addToSet (s : List String) (x : String) : List String :=
  if x ∈ s then s else s ++ [x]

/-- Lines 90-92 of `b_area_summary.py`: create the per-class region map
(all four regions at 0) if absent, then increment one region's counter. -/
def bumpRegion (rc : List (String × List (String × Nat))) (cls region : String) :
    List (String × List (String × Nat)) :=
  let rc1 :=
    if (rc.find? fun p => decide (p.1 = cls)).isSome then rc
    else rc ++ [(cls, REGIONS.map fun r => (r, 0))]
  rc1.map fun p =>
    if p.1 = cls then
      (p.1, p.2.map fun q => if q.1 = region then (q.1, q.2 + 1) else q)
    else p

/-- Lines 96-98 of `b_area_summary.py`: add `cell` to the per-class identity
set. -/
def setAdd (cs : List (String × List String)) (cls cell : String) :
    List (String × List String) :=
  let cs1 :=
    if (cs.find? fun p => decide (p.1 = cls)).isSome then cs
    else cs ++ [(cls, [])]
  cs1.map fun p => if p.1 = cls then (p.1, addToSet p.2 cell) else p

/-- The accumulator of `summarize_b_area`'s row loop. -/
structure BState where
  region_counts : List (String × List (String × Nat))
  cell_sets : List (String × List String)
  all_cells : List String
  total_rows : Nat
deriving Repr, DecidableEq

/-- One iteration of the row loop at `b_area_summary.py:73-98`. -/
def processRow (st : BState) (row : List (String × String)) : BState :=
  let cell_id := pyStrip (rowGet row "CELL-ID")
  let all_cells :=
    if cell_id ≠ "" then addToSet st.all_cells cell_id else st.all_cells
  let step := REGIONS.foldl
    (fun (acc : List String × List (String × List (String × Nat))) region =>
      let raw := pyStrip (rowGet row (region ++ "-NAME"))
      match normalize_class raw with
      | none => acc
      | some cls =>
        if cls = "" then acc
        else (addToSet acc.1 cls, bumpRegion acc.2 cls region))
    ([], st.region_counts)
  let cell_sets :=
    if cell_id ≠ "" then
      step.1.foldl (fun cs cls => setAdd cs cls cell_id) st.cell_sets
    else st.cell_sets
  ⟨step.2, cell_sets, all_cells, st.total_rows + 1⟩

/-- `BAreaSummary` from `b_area_summary.py:56-63`. -/
structure BAreaSummary where
  total_rows : Nat
  total_cells : Nat
  region_counts : List (String × List (String × Nat))
  cell_counts : List (String × Nat)
deriving Repr, DecidableEq

/-- `summarize_b_area` from `b_area_summary.py:66-107`, over the
concatenated rows of the input files. -/
def summarize_b_area (rows : List (List (String × String))) : BAreaSummary :=
  let st := rows.foldl processRow ⟨[], [], [], 0⟩
  ⟨st.total_rows, st.all_cells.length, st.region_counts,
   st.cell_sets.map fun p => (p.1, p.2.length)⟩

/-! ## Verification-layer predicates over the occurrence bucket -/

/-- The bucket entries of class folder `F`. -/
def entriesF (F : String) (b : List (BKey × OccurrenceItem)) :
    List (BKey × OccurrenceItem) :=
  b.filter fun kv => decide (kv.1.1 = F)

/-- Bucket keys are distinct (dict invariant). -/
def bucketWF (b : List (BKey × OccurrenceItem)) : Prop :=
  (b.map (·.1)).Nodup

/-- Every stored item's identifying fields agree with its key. -/
def bucketOK (b : List (BKey × OccurrenceItem)) : Prop :=
  ∀ kv ∈ b, kv.2.class_folder = kv.1.1 ∧ kv.2.cell_key = kv.1.2.1 ∧
    kv.2.region = kv.1.2.2

/-- Every stored artifact path ends in `.jpg`. -/
def bucketJpg (b : List (BKey × OccurrenceItem)) : Prop :=
  ∀ kv ∈ b, (∀ p, kv.2.source_path = some p → pyEndsWith p ".jpg" = true) ∧
    (∀ p, kv.2.active_path = some p → pyEndsWith p ".jpg" = true)

/-! ## Parser lemmas -/

/-- `findMarker` on a token list whose first marker is explicit. -/
theorem findMarker_append (pre : List String) (marker : String)
    (rest : List String) (hpre : ∀ p ∈ pre, ¬(p = "LOWER" ∨ p = "UPPER"))
    (hm : marker = "LOWER" ∨ marker = "UPPER") :
    findMarker (pre ++ marker :: rest) = some (pre, marker, rest) := by
  induction pre with
  | nil => simp [findMarker, hm]
  | cons p ps ih =>
    have hp := hpre p (by simp)
    have hrec := ih fun q hq => hpre q (by simp [hq])
    simp [findMarker, hp, hrec]

/-- `sideFrom` when the expected shape `<digit?> B <L|R>` is present. -/
theorem sideFrom_exact (marker side : String) (t : List String)
    (hside : side = "L" ∨ side = "R") :
    sideFrom marker ("B" :: side :: t) = some side := by
  have hB : isDigits "B" = false := by decide
  simp [sideFrom, hB, hside]

/-- `sideFrom` with a digit token before the expected `B <L|R>`. -/
theorem sideFrom_digit (marker d side : String) (t : List String)
    (hd : isDigits d = true) (hside : side = "L" ∨ side = "R") :
    sideFrom marker (d :: "B" :: side :: t) = some side := by
  simp [sideFrom, hd, hside]

/-- C2, amended.  The fallback window scan at `filename_parser.py:67-73` is
NOT attempted whenever the exact shape fails: it runs only when the token at
the expected `B` position (after optionally skipping one digit token) is
absent or differs from `"B"`.  When a `"B"` token is at the expected position
but the token after it is not `"L"`/`"R"` (or is absent), the parse rejects
outright. -/
theorem C2_fallback_gate :
    (∀ (marker x : String) (t post : List String),
      x ≠ "L" → x ≠ "R" →
      (post = "B" :: x :: t ∨
        ∃ d, isDigits d = true ∧ post = d :: "B" :: x :: t) →
      sideFrom marker post = none) ∧
    (∀ (marker b : String) (t : List String),
      b ≠ "B" → isDigits b = false →
      sideFrom marker (b :: t) = scanBW ((marker :: b :: t).take 6)) := by
  constructor
  · intro marker x t post hxl hxr hpost
    have hB : isDigits "B" = false := by decide
    rcases hpost with h | ⟨d, hd, h⟩
    · subst h; simp [sideFrom, hB, hxl, hxr]
    · subst h; simp [sideFrom, hd, hxl, hxr]
  · intro marker b t hb hbd
    simp [sideFrom, hbd, hb]

/-- Witness for `C2_fallback_gate`: with a `B` at the expected position
followed by `Q`, the side is rejected even though the window
`LOWER B Q B L` holds an adjacent `B L` pair the fallback would find. -/
theorem C2_fallback_gate_witness :
    sideFrom "LOWER" ["B", "Q", "B", "L"] = none ∧
    scanBW ["LOWER", "B", "Q", "B", "L"] = some "L" :=
  ⟨C2_fallback_gate.1 "LOWER" "Q" ["B", "L"] ["B", "Q", "B", "L"]
      (by decide) (by decide) (Or.inl rfl),
    by decide⟩

/-- C2, counterexample.  For the filename
`X_LOWER_B_Q_B_L_SourceMap.jpg` the exact shape fails (the token after the
expected `B` is `Q`), and the window `parts[idx:idx+6] =
[LOWER, B, Q, B, L, SourceMap]` holds an adjacent `B, L` pair; the claim
therefore demands a parse result with side `L`, but `parse_image_filename`
rejects the filename. -/
theorem C2_counterexample :
    parse_image_filename "X_LOWER_B_Q_B_L_SourceMap.jpg" = none ∧
    scanBW ["LOWER", "B", "Q", "B", "L", "SourceMap"] = some "L" := by
  constructor <;> decide

/-- C5: for every pair of filenames following the documented convention
that differ only in the presence of a numeric sequence token between the
side marker and the `B` token, `parse_image_filename` returns the same
region code for both, always reconstructed as `<marker>_B_<side>` with the
digit token dropped. -/
theorem C5_digit_token_irrelevant (name1 name2 : String) (pre : List String)
    (marker d side mt1 mt2 : String) (t : List String)
    (hpre : ∀ p ∈ pre, ¬(p = "LOWER" ∨ p = "UPPER"))
    (hm : marker = "LOWER" ∨ marker = "UPPER")
    (hd : isDigits d = true)
    (hside : side = "L" ∨ side = "R")
    (hext1 : extOk (pyLower name1) = true)
    (hmt1 : mapTypeOf (pyLower name1) = some mt1)
    (hsplit1 : pySplitUnder (stemOf name1) =
      pre ++ marker :: d :: "B" :: side :: t)
    (hext2 : extOk (pyLower name2) = true)
    (hmt2 : mapTypeOf (pyLower name2) = some mt2)
    (hsplit2 : pySplitUnder (stemOf name2) =
      pre ++ marker :: "B" :: side :: t) :
    (parse_image_filename name1).map (·.region) =
      some (marker ++ "_B_" ++ side) ∧
    (parse_image_filename name2).map (·.region) =
      some (marker ++ "_B_" ++ side) := by
  constructor
  · simp only [parse_image_filename, hext1, hmt1, if_true, hsplit1,
      findMarker_append pre marker _ hpre hm,
      sideFrom_digit marker d side t hd hside, parseStemTokens]
    split <;> simp
  · simp only [parse_image_filename, hext2, hmt2, if_true, hsplit2,
      findMarker_append pre marker _ hpre hm,
      sideFrom_exact marker side t hside, parseStemTokens]
    split <;> simp

/-- Witness for `C5_digit_token_irrelevant` at the concrete filename pair
`A_LOWER_2_B_L_SourceMap.jpg` / `A_LOWER_B_L_SourceMap.jpg`. -/
theorem C5_digit_token_irrelevant_witness :
    (parse_image_filename "A_LOWER_2_B_L_SourceMap.jpg").map (·.region) =
      some ("LOWER" ++ "_B_" ++ "L") ∧
    (parse_image_filename "A_LOWER_B_L_SourceMap.jpg").map (·.region) =
      some ("LOWER" ++ "_B_" ++ "L") :=
  C5_digit_token_irrelevant "A_LOWER_2_B_L_SourceMap.jpg"
    "A_LOWER_B_L_SourceMap.jpg" ["A"] "LOWER" "2" "L" "SourceMap" "SourceMap"
    ["SourceMap"] (by decide) (by decide) (by decide) (by decide)
    (by decide) (by decide) (by decide) (by decide) (by decide) (by decide)

/-! ## Class-key lookup lemmas (C3) -/

theorem alookup_nil {α β : Type} [DecidableEq α] (k : α) :
    alookup ([] : List (α × β)) k = none := rfl

theorem alookup_cons {α β : Type} [DecidableEq α] (a : α) (b : β)
    (l : List (α × β)) (k : α) :
    alookup ((a, b) :: l) k = if a = k then some b else alookup l k := by
  simp only [alookup, List.find?]
  by_cases h : a = k <;> simp [h]

/-- The replace-in-place branch of a dict assignment. -/
theorem alookup_map_set {α β : Type} [DecidableEq α] (m : List (α × β))
    (k k' : α) (v : β) :
    alookup (m.map fun p => if p.1 = k then (k, v) else p) k' =
      if k' = k then (alookup m k).map (fun _ => v) else alookup m k' := by
  induction m with
  | nil => by_cases h : k' = k <;> simp [alookup_nil, h]
  | cons p m ih =>
    obtain ⟨a, b⟩ := p
    by_cases hak : a = k
    · subst hak
      by_cases hk' : k' = a
      · subst hk'; simp [alookup_cons, ih]
      · simp [alookup_cons, hk', Ne.symm hk', ih]
    · by_cases hak' : a = k'
      · subst hak'
        simp [alookup_cons, hak, Ne.symm hak]
      · simp [alookup_cons, hak, hak', ih]

/-- The append branch of a dict assignment (key absent). -/
theorem alookup_append_one {α β : Type} [DecidableEq α]
    (m : List (α × β)) (k k' : α) (v : β)
    (hnone : alookup m k = none) :
    alookup (m ++ [(k, v)]) k' = if k' = k then some v else alookup m k' := by
  induction m with
  | nil =>
    by_cases h : k' = k
    · simp [alookup_cons, h]
    · simp [alookup_cons, Ne.symm h, h, alookup_nil]
  | cons p m ih =>
    obtain ⟨a, b⟩ := p
    rw [alookup_cons] at hnone
    by_cases hak : a = k
    · simp [hak] at hnone
    · have ih' := ih (by simpa [hak] using hnone)
      by_cases hak' : a = k'
      · subst hak'
        simp [List.cons_append, alookup_cons, hak]
      · simp [List.cons_append, alookup_cons, hak', ih']

/-- The `find?` test of the dict operations detects a present key. -/
theorem find_isSome_alookup {α β : Type} [DecidableEq α]
    (m : List (α × β)) (k : α) :
    (m.find? fun p => decide (p.1 = k)).isSome = (alookup m k).isSome := by
  simp [alookup]

/-- Python dict assignment: lookup after `m[k] = v`. -/
theorem alookup_assocSet {α β : Type} [DecidableEq α] (m : List (α × β))
    (k k' : α) (v : β) :
    alookup (assocSet m k v) k' = if k' = k then some v else alookup m k' := by
  unfold assocSet
  by_cases h : (m.find? fun p => decide (p.1 = k)).isSome
  · rw [if_pos h, alookup_map_set]
    rw [find_isSome_alookup] at h
    obtain ⟨w, hw⟩ := Option.isSome_iff_exists.mp h
    simp [hw]
  · rw [if_neg h]
    rw [find_isSome_alookup] at h
    exact alookup_append_one m k k' v (by simpa using h)

/-- Lookup after the key-to-folder fold: the LAST matching folder wins. -/
theorem alookup_buildKeyToFolder_aux (k : String) :
    ∀ (l : List (String × List String)) (m : List (String × String)),
      alookup (l.foldl (fun m d => assocSet m (normalize_class_folder d.1) d.1) m) k =
        match (l.filter fun d => decide (normalize_class_folder d.1 = k)).getLast? with
        | some d => some d.1
        | none => alookup m k := by
  intro l
  induction l with
  | nil => intro m; simp
  | cons d l ih =>
    intro m
    simp only [List.foldl_cons]
    rw [ih]
    by_cases hd : normalize_class_folder d.1 = k
    · have hfc : List.filter (fun e => decide (normalize_class_folder e.1 = k)) (d :: l) =
          d :: List.filter (fun e => decide (normalize_class_folder e.1 = k)) l := by
        simp [List.filter_cons, hd]
      rw [hfc]
      cases hfl : List.filter (fun e => decide (normalize_class_folder e.1 = k)) l with
      | nil => simp [hfl, alookup_assocSet, hd]
      | cons y ys =>
        have hsome : (y :: ys).getLast?.isSome := by
          simp [List.getLast?_isSome]
        obtain ⟨e, he⟩ := Option.isSome_iff_exists.mp hsome
        simp [he, List.getLast?_cons_cons]
    · have hfc : List.filter (fun e => decide (normalize_class_folder e.1 = k)) (d :: l) =
          List.filter (fun e => decide (normalize_class_folder e.1 = k)) l := by
        simp [List.filter_cons, hd]
      rw [hfc]
      cases hfl : List.filter (fun e => decide (normalize_class_folder e.1 = k)) l with
      | nil => simp [hfl, alookup_assocSet, Ne.symm hd]
      | cons y ys =>
        have hsome : (y :: ys).getLast?.isSome := by
          simp [List.getLast?_isSome]
        obtain ⟨e, he⟩ := Option.isSome_iff_exists.mp hsome
        simp [he]

/-- C3, amended.  The `class_key_to_folder` lookup of a built `ViewIndex`
maps each normalized key to the LAST folder name (in sorted iteration order)
whose name normalizes to that key — dict assignment at `view_index.py:67`
overwrites, so it is the earlier colliding folders that are absent from the
key-to-folder lookup. -/
theorem C3_key_to_folder_last_wins (dirs : List (String × List String))
    (k : String) :
    alookup (build_view_index dirs).class_key_to_folder k =
      ((sortDirs dirs).filter fun d =>
        decide (normalize_class_folder d.1 = k)).getLast?.map (·.1) := by
  have h := alookup_buildKeyToFolder_aux k (sortDirs dirs) []
  simp only [build_view_index, buildKeyToFolder]
  rw [h]
  cases ((sortDirs dirs).filter fun d =>
      decide (normalize_class_folder d.1 = k)).getLast? <;> simp [alookup_nil]

/-- C3, counterexample.  Folders `05_NG_X` and `6_NG_X` both normalize to
`NG_X`; sorted order is `[05_NG_X, 6_NG_X]`, so the claim predicts the
lookup maps `NG_X` to the first-seen `05_NG_X`, but the built index maps it
to `6_NG_X` (the last seen), while both folders' occurrences still appear
under their own folder names. -/
theorem C3_counterexample :
    alookup (build_view_index [("6_NG_X", ["C_UPPER_B_R_SourceMap.jpg"]),
        ("05_NG_X", ["A_LOWER_B_L_SourceMap.jpg"])]).class_key_to_folder
      "NG_X" ≠ some "05_NG_X" ∧
    alookup (build_view_index [("6_NG_X", ["C_UPPER_B_R_SourceMap.jpg"]),
        ("05_NG_X", ["A_LOWER_B_L_SourceMap.jpg"])]).class_key_to_folder
      "NG_X" = some "6_NG_X" ∧
    (alookup (build_view_index [("6_NG_X", ["C_UPPER_B_R_SourceMap.jpg"]),
        ("05_NG_X", ["A_LOWER_B_L_SourceMap.jpg"])]).classes
      "05_NG_X").isSome = true ∧
    (alookup (build_view_index [("6_NG_X", ["C_UPPER_B_R_SourceMap.jpg"]),
        ("05_NG_X", ["A_LOWER_B_L_SourceMap.jpg"])]).classes
      "6_NG_X").isSome = true := by
  refine ⟨?_, ?_, ?_, ?_⟩ <;> decide

/-! ## Fetch-engine theorems (C6, C7) -/

/-- C6, amended.  If the cancellation callback answers `true` at its first
poll (before the first day is processed) and there is at least one day,
`fetch_images` returns all-zero statistics (empty per-class map) and leaves
the filesystem unchanged except for ensuring the output root directory
itself exists (`engine_fetch.py:68` runs before the loop); in particular no
class directory is created. -/
theorem C6_cancel_before_first_day (days : List (Option ScanRes))
    (out_dir : String) (cancel : Nat → Bool) (fs : FFS)
    (hdays : days ≠ []) (hc : cancel 0 = true) :
    fetch_images days out_dir cancel fs =
      (⟨0, 0, 0, 0, 0, []⟩, ensureDirF fs out_dir) := by
  cases days with
  | nil => exact absurd rfl hdays
  | cons d rest => simp [fetch_images, phase1, hc]

/-- Witness for `C6_cancel_before_first_day`. -/
theorem C6_cancel_before_first_day_witness :
    fetch_images [none] "o" (fun _ => true) ⟨["o"], []⟩ =
      (⟨0, 0, 0, 0, 0, []⟩, ensureDirF ⟨["o"], []⟩ "o") :=
  C6_cancel_before_first_day [none] "o" (fun _ => true) ⟨["o"], []⟩
    (by decide) rfl

/-- C6, counterexample.  With an absent output root, cancellation before the
first day still creates the output root directory: the returned stats are
all zero but the filesystem is NOT unchanged, refuting "creates no
directories on the filesystem". -/
theorem C6_counterexample :
    (fetch_images [none] "out" (fun _ => true) ⟨[], []⟩).1 =
      ⟨0, 0, 0, 0, 0, []⟩ ∧
    (fetch_images [none] "out" (fun _ => true) ⟨[], []⟩).2 ≠
      (⟨[], []⟩ : FFS) := by
  constructor <;> decide

/-- The pre-scan loop cancelled right after a processed prefix `d1`: the
missing-day counter reflects `d1`, everything else is returned as it stood;
the `cancelled` flag is set. -/
theorem phase1_cancel_after_prefix (cancel : Nat → Bool) :
    ∀ (d1 d2 : List (Option ScanRes)) (k m i x : Nat) (acc : List ScanRes),
      (∀ j, j < d1.length → cancel (k + j) = false) →
      cancel (k + d1.length) = true → d2 ≠ [] →
      ∃ i' x' acc',
        phase1 cancel (d1 ++ d2) k m i x acc =
          ⟨true, m + (d1.filter Option.isNone).length, i', x', acc',
            k + d1.length⟩ := by
  intro d1
  induction d1 with
  | nil =>
    intro d2 k m i x acc _ hc hd2
    cases d2 with
    | nil => exact absurd rfl hd2
    | cons e rest =>
      have hck : cancel k = true := by simpa using hc
      refine ⟨i, x, acc, ?_⟩
      simp [phase1, hck]
  | cons a d1 ih =>
    intro d2 k m i x acc h1 hc hd2
    have h0 : cancel k = false := by simpa using h1 0 (Nat.succ_pos _)
    have h1' : ∀ j, j < d1.length → cancel (k + 1 + j) = false := by
      intro j hj
      have h := h1 (j + 1) (by simp only [List.length_cons]; omega)
      have heq : k + (j + 1) = k + 1 + j := by omega
      rwa [heq] at h
    have hc' : cancel (k + 1 + d1.length) = true := by
      have heq : k + (a :: d1).length = k + 1 + d1.length := by
        simp only [List.length_cons]; omega
      rwa [heq] at hc
    cases a with
    | none =>
      obtain ⟨i', x', acc', h⟩ := ih d2 (k + 1) (m + 1) i x acc h1' hc' hd2
      refine ⟨i', x', acc', ?_⟩
      have hlhs : phase1 cancel ((none :: d1) ++ d2) k m i x acc =
          phase1 cancel (d1 ++ d2) (k + 1) (m + 1) i x acc := by
        simp [phase1, h0]
      rw [hlhs, h]
      have hcn : ((none :: d1 : List (Option ScanRes)).filter Option.isNone).length =
          (d1.filter Option.isNone).length + 1 := by
        simp [List.filter_cons]
      rw [hcn]
      have e1 : m + 1 + (d1.filter Option.isNone).length =
          m + ((d1.filter Option.isNone).length + 1) := by omega
      have e2 : k + 1 + d1.length =
          k + (none :: d1 : List (Option ScanRes)).length := by
        simp only [List.length_cons]; omega
      rw [e1, e2]
    | some sr =>
      obtain ⟨i', x', acc', h⟩ := ih d2 (k + 1) m
        (i + sr.included_activemap_count) (x + sr.missing_activemap_count)
        (acc ++ [sr]) h1' hc' hd2
      refine ⟨i', x', acc', ?_⟩
      have hlhs : phase1 cancel ((some sr :: d1) ++ d2) k m i x acc =
          phase1 cancel (d1 ++ d2) (k + 1) m (i + sr.included_activemap_count)
            (x + sr.missing_activemap_count) (acc ++ [sr]) := by
        simp [phase1, h0]
      rw [hlhs, h]
      have hcn : ((some sr :: d1).filter Option.isNone).length =
          (d1.filter Option.isNone).length := by
        simp [List.filter_cons]
      rw [hcn]
      have e2 : k + 1 + d1.length = k + (some sr :: d1).length := by
        simp only [List.length_cons]; omega
      rw [e2]

/-- C7, amended.  When cancellation triggers during phase 1 after the days
`d1` have been processed, `fetch_images` returns immediately with ONLY the
missing-day counter reflecting the scanned prefix; the secondary-artifact
included and missing counters, the copy counters and the per-class map are
all returned as zero/empty (`engine_fetch.py:82`), and the filesystem holds
only the ensured output root. -/
theorem C7_cancel_during_prescan (d1 d2 : List (Option ScanRes))
    (out_dir : String) (cancel : Nat → Bool) (fs : FFS)
    (h1 : ∀ j, j < d1.length → cancel j = false)
    (hc : cancel d1.length = true) (hd2 : d2 ≠ []) :
    fetch_images (d1 ++ d2) out_dir cancel fs =
      (⟨0, 0, (d1.filter Option.isNone).length, 0, 0, []⟩,
        ensureDirF fs out_dir) := by
  obtain ⟨i', x', acc', h⟩ := phase1_cancel_after_prefix cancel d1 d2 0 0 0 0 []
    (by simpa using h1) (by simpa using hc) hd2
  simp [fetch_images, h]

/-- Witness for `C7_cancel_during_prescan`: one found day scanned
(activemap included 1 / missing 2), then cancellation. -/
theorem C7_cancel_during_prescan_witness :
    fetch_images ([some (⟨[("C", ["f.jpg"])], 1, 2⟩ : ScanRes)] ++ [none]) "o"
      (fun n => decide (1 ≤ n)) ⟨["o"], []⟩ =
      (⟨0, 0, ([some (⟨[("C", ["f.jpg"])], 1, 2⟩ : ScanRes)].filter
          Option.isNone).length, 0, 0, []⟩,
        ensureDirF ⟨["o"], []⟩ "o") :=
  C7_cancel_during_prescan [some (⟨[("C", ["f.jpg"])], 1, 2⟩ : ScanRes)]
    [none] "o" (fun n => decide (1 ≤ n)) ⟨["o"], []⟩
    (by intro j hj; simp only [List.length_cons, List.length_nil] at hj;
        have hj0 : j = 0 := by omega
        subst hj0; decide)
    (by decide) (by decide)

/-- C7, counterexample.  Two found days; the first is scanned with
activemap-included 1 and activemap-missing 2, then cancellation triggers:
the claim predicts those counters in the returned stats, but the code
returns them as zero. -/
theorem C7_counterexample :
    (fetch_images [some ⟨[("C", ["f.jpg"])], 1, 2⟩, some ⟨[], 3, 4⟩] "out"
        (fun n => decide (1 ≤ n)) ⟨["out"], []⟩).1 =
      ⟨0, 0, 0, 0, 0, []⟩ ∧
    (fetch_images [some ⟨[("C", ["f.jpg"])], 1, 2⟩, some ⟨[], 3, 4⟩] "out"
        (fun n => decide (1 ≤ n)) ⟨["out"], []⟩).1.active_included ≠ 1 := by
  constructor <;> decide

/-! ## Labeling-engine theorems (C8) -/

/-- C8: `undo` on an action whose moved-to path no longer exists (e.g. an
already-undone action) is a silent no-op: no exception, and the filesystem
is returned unchanged. -/
theorem C8_double_undo_noop (a : LabelAction) (fs : LFS)
    (h : fileExists fs a.dst_path = false) :
    undo a fs = some fs := by
  simp [undo, h]

/-- Witness for `C8_double_undo_noop`. -/
theorem C8_double_undo_noop_witness :
    undo ⟨"RealNG", "05_NG", "A", "LOWER_B_L", ["out", "05_NG", "f.jpg"],
        ["out", "HumanReview", "05_NG", "RealNG", "f.jpg"]⟩ ⟨[], []⟩ =
      some ⟨[], []⟩ :=
  C8_double_undo_noop _ _ (by decide)

/-! ## Filesystem lemmas for the labeling engine (C4) -/

theorem find_filter_ne_of_ne (fl : List (FPath × Nat)) (p q : FPath)
    (hne : q ≠ p) :
    ((fl.filter fun r => decide (r.1 ≠ p)).find? fun r => decide (r.1 = q)) =
      fl.find? fun r => decide (r.1 = q) := by
  induction fl with
  | nil => rfl
  | cons a fl ih =>
    rw [List.filter_cons]
    by_cases hap : a.1 = p
    · rw [if_neg (by simp [hap]), ih,
        List.find?_cons_of_neg _ (by simp [hap, Ne.symm hne])]
    · rw [if_pos (by simp [hap])]
      by_cases haq : a.1 = q
      · rw [List.find?_cons_of_pos _ (by simp [haq]),
          List.find?_cons_of_pos _ (by simp [haq])]
      · rw [List.find?_cons_of_neg _ (by simp [haq]),
          List.find?_cons_of_neg _ (by simp [haq]), ih]

theorem find_filter_ne_self (fl : List (FPath × Nat)) (p : FPath) :
    ((fl.filter fun r => decide (r.1 ≠ p)).find? fun r => decide (r.1 = p)) =
      none := by
  induction fl with
  | nil => rfl
  | cons a fl ih =>
    rw [List.filter_cons]
    by_cases hap : a.1 = p
    · rw [if_neg (by simp [hap])]; exact ih
    · rw [if_pos (by simp [hap]), List.find?_cons_of_neg _ (by simp [hap])]
      exact ih

theorem fileAt_unlink_self (fs : LFS) (p : FPath) :
    fileAt (unlink fs p) p = none := by
  show ((fs.files.filter fun r => decide (r.1 ≠ p)).find?
      fun r => decide (r.1 = p)).map (·.2) = none
  rw [find_filter_ne_self]
  rfl

theorem fileAt_unlink_ne (fs : LFS) (p q : FPath) (h : q ≠ p) :
    fileAt (unlink fs p) q = fileAt fs q := by
  show ((fs.files.filter fun r => decide (r.1 ≠ p)).find?
      fun r => decide (r.1 = q)).map (·.2) = fileAt fs q
  rw [find_filter_ne_of_ne fs.files p q h]
  rfl

theorem find_append_one_self (fl : List (FPath × Nat)) (p : FPath) (c : Nat)
    (h : (fl.find? fun r => decide (r.1 = p)) = none) :
    ((fl ++ [(p, c)]).find? fun r => decide (r.1 = p)) = some (p, c) := by
  induction fl with
  | nil => rw [List.nil_append, List.find?_cons_of_pos _ (by simp)]
  | cons a fl ih =>
    by_cases hap : a.1 = p
    · rw [List.find?_cons_of_pos _ (by simp [hap])] at h
      exact absurd h (by simp)
    · rw [List.find?_cons_of_neg _ (by simp [hap])] at h
      rw [List.cons_append, List.find?_cons_of_neg _ (by simp [hap])]
      exact ih h

theorem find_append_one_ne (fl : List (FPath × Nat)) (p q : FPath) (c : Nat)
    (h : q ≠ p) :
    ((fl ++ [(p, c)]).find? fun r => decide (r.1 = q)) =
      fl.find? fun r => decide (r.1 = q) := by
  induction fl with
  | nil =>
    rw [List.nil_append, List.find?_cons_of_neg _ (by simp [Ne.symm h])]
  | cons a fl ih =>
    by_cases haq : a.1 = q
    · rw [List.cons_append, List.find?_cons_of_pos _ (by simp [haq]),
        List.find?_cons_of_pos _ (by simp [haq])]
    · rw [List.cons_append, List.find?_cons_of_neg _ (by simp [haq]),
        List.find?_cons_of_neg _ (by simp [haq]), ih]

theorem fileAt_setFile_self (fs : LFS) (p : FPath) (c : Nat) :
    fileAt (setFile fs p c) p = some c := by
  show (((fs.files.filter fun r => decide (r.1 ≠ p)) ++ [(p, c)]).find?
      fun r => decide (r.1 = p)).map (·.2) = some c
  rw [find_append_one_self _ p c (find_filter_ne_self fs.files p)]
  rfl

theorem fileAt_setFile_ne (fs : LFS) (p q : FPath) (c : Nat) (h : q ≠ p) :
    fileAt (setFile fs p c) q = fileAt fs q := by
  show (((fs.files.filter fun r => decide (r.1 ≠ p)) ++ [(p, c)]).find?
      fun r => decide (r.1 = q)).map (·.2) = fileAt fs q
  rw [find_append_one_ne _ p q c h, find_filter_ne_of_ne fs.files p q h]
  rfl

theorem fileAt_ensureDirL (fs : LFS) (d : FPath) (p : FPath) :
    fileAt (ensureDirL fs d) p = fileAt fs p := by
  simp only [ensureDirL]
  split <;> rfl

/-- C4: for an occurrence whose primary (SourceMap) file exists,
`apply_label` followed immediately by `undo` on the returned action restores
the file to its original path with identical content, and leaves no file at
the moved-to path under the HumanReview tree.  (The moved-to path, being
under the review tree, differs from the source path.) -/
theorem C4_apply_label_undo_roundtrip (occ : OccItemFS) (label : String)
    (human_root : FPath) (fs : LFS) (src : FPath)
    (hsrc : occ.source_path = some src)
    (hex : fileExists fs src = true)
    (hne : src ≠ dest_dir_for human_root occ.class_folder label ++
      [lastName src]) :
    ∃ a fs1 fs2,
      apply_label occ label human_root fs = some (a, fs1) ∧
      undo a fs1 = some fs2 ∧
      a.src_path = src ∧
      a.dst_path = dest_dir_for human_root occ.class_folder label ++
        [lastName src] ∧
      fileAt fs2 src = fileAt fs src ∧
      fileAt fs2 a.dst_path = none := by
  obtain ⟨c, hc⟩ := Option.isSome_iff_exists.mp (by simpa [fileExists] using hex)
  set ddir := dest_dir_for human_root occ.class_folder label with hddir
  set dst := ddir ++ [lastName src] with hdst
  set fs1 := ensureDirL fs ddir with hfs1
  set fs2 := if fileExists fs1 dst then unlink fs1 dst else fs1 with hfs2
  have hsrc2 : fileAt fs2 src = some c := by
    rw [hfs2]
    split
    · rw [fileAt_unlink_ne _ _ _ hne, hfs1, fileAt_ensureDirL]
      exact hc
    · rw [hfs1, fileAt_ensureDirL]
      exact hc
  have hmove : moveFile fs2 src dst = some (setFile (unlink fs2 src) dst c) := by
    simp [moveFile, hsrc2]
  have happly : apply_label occ label human_root fs =
      some (⟨label, occ.class_folder, occ.cell_key, occ.region, src, dst⟩,
        setFile (unlink fs2 src) dst c) := by
    simp only [apply_label, hsrc, hex, if_true, ← hddir, ← hfs1, ← hdst,
      ← hfs2, hmove]
  set fs3 := setFile (unlink fs2 src) dst c with hfs3
  have hdst3 : fileAt fs3 dst = some c := fileAt_setFile_self _ _ _
  have hsrc3 : fileAt fs3 src = none := by
    rw [hfs3, fileAt_setFile_ne _ _ _ _ hne, fileAt_unlink_self]
  set fs4 := ensureDirL fs3 src.dropLast with hfs4
  have hdst4 : fileAt fs4 dst = some c := by
    rw [hfs4, fileAt_ensureDirL]; exact hdst3
  have hsrc4 : fileAt fs4 src = none := by
    rw [hfs4, fileAt_ensureDirL]; exact hsrc3
  have hundo : undo ⟨label, occ.class_folder, occ.cell_key, occ.region,
      src, dst⟩ fs3 = some (setFile (unlink fs4 dst) src c) := by
    have hde : fileExists fs3 dst = true := by simp [fileExists, hdst3]
    have hse : fileExists fs4 src = false := by simp [fileExists, hsrc4]
    simp only [undo, hde, if_true, ← hfs4, hse, Bool.false_eq_true, if_false,
      moveFile, hdst4]
  refine ⟨⟨label, occ.class_folder, occ.cell_key, occ.region, src, dst⟩,
    fs3, setFile (unlink fs4 dst) src c, happly, hundo, rfl, rfl, ?_, ?_⟩
  · rw [fileAt_setFile_self, hc]
  · rw [fileAt_setFile_ne _ _ _ _ (fun h => hne h.symm), fileAt_unlink_self]

/-- Witness for `C4_apply_label_undo_roundtrip`: one source file with
content `7`, labeled `RealNG` and undone. -/
theorem C4_apply_label_undo_roundtrip_witness :
    ∃ a fs1 fs2,
      apply_label ⟨"05_NG", "A", "LOWER_B_L",
          some ["out", "05_NG", "A_SourceMap.jpg"]⟩ "RealNG"
        ["out", "HumanReview"]
        ⟨[(["out", "05_NG", "A_SourceMap.jpg"], 7)], []⟩ = some (a, fs1) ∧
      undo a fs1 = some fs2 ∧
      a.src_path = ["out", "05_NG", "A_SourceMap.jpg"] ∧
      a.dst_path = dest_dir_for ["out", "HumanReview"] "05_NG" "RealNG" ++
        [lastName ["out", "05_NG", "A_SourceMap.jpg"]] ∧
      fileAt fs2 ["out", "05_NG", "A_SourceMap.jpg"] =
        fileAt ⟨[(["out", "05_NG", "A_SourceMap.jpg"], 7)], []⟩
          ["out", "05_NG", "A_SourceMap.jpg"] ∧
      fileAt fs2 a.dst_path = none :=
  C4_apply_label_undo_roundtrip
    ⟨"05_NG", "A", "LOWER_B_L", some ["out", "05_NG", "A_SourceMap.jpg"]⟩
    "RealNG" ["out", "HumanReview"]
    ⟨[(["out", "05_NG", "A_SourceMap.jpg"], 7)], []⟩
    ["out", "05_NG", "A_SourceMap.jpg"] rfl (by decide) (by decide)

/-! ## Summarizer theorem (C9) -/

/-- C9: two rows naming the same (normalizing) class in region `LOWER_B_L`
for the same cell identity yield occurrence count 2 for that (class, region)
but unique-identity count 1 for the class, reported under the normalized
class name. -/
theorem C9_occurrences_vs_unique (c raw k : String)
    (hc : pyStrip c ≠ "")
    (hk : normalize_class (pyStrip raw) = some k)
    (hk0 : k ≠ "") :
    alookup (summarize_b_area
        [[("CELL-ID", c), ("LOWER_B_L-NAME", raw)],
         [("CELL-ID", c), ("LOWER_B_L-NAME", raw)]]).region_counts k =
      some [("LOWER_B_L", 2), ("LOWER_B_R", 0), ("UPPER_B_L", 0),
        ("UPPER_B_R", 0)] ∧
    alookup (summarize_b_area
        [[("CELL-ID", c), ("LOWER_B_L-NAME", raw)],
         [("CELL-ID", c), ("LOWER_B_L-NAME", raw)]]).cell_counts k =
      some 1 := by
  have h1 : ("LOWER_B_L" ++ "-NAME" : String) = "LOWER_B_L-NAME" := rfl
  have h2 : ("LOWER_B_R" ++ "-NAME" : String) = "LOWER_B_R-NAME" := rfl
  have h3 : ("UPPER_B_L" ++ "-NAME" : String) = "UPPER_B_L-NAME" := rfl
  have h4 : ("UPPER_B_R" ++ "-NAME" : String) = "UPPER_B_R-NAME" := rfl
  have hnorm0 : normalize_class (pyStrip "") = none := rfl
  constructor <;>
    simp [summarize_b_area, processRow, REGIONS, rowGet, alookup_cons,
      alookup_nil, bumpRegion, setAdd, addToSet, h1, h2, h3, h4, hnorm0,
      hk, hc, hk0, List.find?]

/-- Witness for `C9_occurrences_vs_unique` at the spec's example: identity
`X1`, raw class `02_NG_TORN`, normalized `NG_TORN`. -/
theorem C9_occurrences_vs_unique_witness :
    alookup (summarize_b_area
        [[("CELL-ID", "X1"), ("LOWER_B_L-NAME", "02_NG_TORN")],
         [("CELL-ID", "X1"), ("LOWER_B_L-NAME", "02_NG_TORN")]]).region_counts
      "NG_TORN" =
      some [("LOWER_B_L", 2), ("LOWER_B_R", 0), ("UPPER_B_L", 0),
        ("UPPER_B_R", 0)] ∧
    alookup (summarize_b_area
        [[("CELL-ID", "X1"), ("LOWER_B_L-NAME", "02_NG_TORN")],
         [("CELL-ID", "X1"), ("LOWER_B_L-NAME", "02_NG_TORN")]]).cell_counts
      "NG_TORN" = some 1 :=
  C9_occurrences_vs_unique "X1" "02_NG_TORN" "NG_TORN" (by decide) (by decide)
    (by decide)

/-! ## Generic dict lemmas for the index builder (C1, C10) -/

theorem alookup_assocSet_self {α β : Type} [DecidableEq α]
    (m : List (α × β)) (k : α) (v : β) :
    alookup (assocSet m k v) k = some v := by
  rw [alookup_assocSet]
  simp

theorem alookup_assocSet_ne {α β : Type} [DecidableEq α]
    (m : List (α × β)) (k k' : α) (v : β) (h : k' ≠ k) :
    alookup (assocSet m k v) k' = alookup m k' := by
  rw [alookup_assocSet, if_neg h]

theorem keys_map_set {α β : Type} [DecidableEq α] (m : List (α × β))
    (k : α) (v : β) :
    ((m.map fun p => if p.1 = k then (k, v) else p).map (·.1)) =
      m.map (·.1) := by
  induction m with
  | nil => rfl
  | cons a m ih =>
    by_cases h : a.1 = k
    · simp [h, ih]
    · simp [h, ih]

theorem alookup_eq_none_not_mem_keys {α β : Type} [DecidableEq α]
    {m : List (α × β)} {k : α} (h : alookup m k = none) :
    k ∉ m.map (·.1) := by
  induction m with
  | nil => simp
  | cons a m ih =>
    obtain ⟨x, y⟩ := a
    rw [alookup_cons] at h
    by_cases hx : x = k
    · simp [hx] at h
    · intro hmem
      rcases List.mem_cons.mp hmem with hh | hh
      · exact hx hh.symm
      · exact ih (by simpa [hx] using h) hh

theorem wf_assocSet {α β : Type} [DecidableEq α] (m : List (α × β))
    (k : α) (v : β) (h : (m.map (·.1)).Nodup) :
    ((assocSet m k v).map (·.1)).Nodup := by
  unfold assocSet
  by_cases hs : (m.find? fun p => decide (p.1 = k)).isSome
  · rw [if_pos hs, keys_map_set]
    exact h
  · rw [if_neg hs]
    rw [find_isSome_alookup] at hs
    have hn : alookup m k = none := by
      cases he : alookup m k
      · rfl
      · simp [he] at hs
    have hnm := alookup_eq_none_not_mem_keys hn
    rw [List.map_append]
    exact List.nodup_append.mpr ⟨h, List.nodup_singleton _, by simp [hnm]⟩

theorem alookup_eq_some_mem {α β : Type} [DecidableEq α]
    {m : List (α × β)} {k : α} {v : β} (h : alookup m k = some v) :
    (k, v) ∈ m := by
  induction m with
  | nil => simp [alookup_nil] at h
  | cons a m ih =>
    obtain ⟨x, y⟩ := a
    rw [alookup_cons] at h
    by_cases hx : x = k
    · rw [if_pos hx] at h
      subst hx
      obtain rfl : y = v := by simpa using h
      exact List.mem_cons_self _ _
    · exact List.mem_cons_of_mem _ (ih (by simpa [hx] using h))

theorem mem_alookup_of_wf {α β : Type} [DecidableEq α]
    {m : List (α × β)} {k : α} {v : β} (hwf : (m.map (·.1)).Nodup)
    (h : (k, v) ∈ m) : alookup m k = some v := by
  induction m with
  | nil => simp at h
  | cons a m ih =>
    obtain ⟨x, y⟩ := a
    rw [List.map_cons, List.nodup_cons] at hwf
    rcases List.mem_cons.mp h with hh | hh
    · injection hh with h1 h2
      subst h1
      subst h2
      rw [alookup_cons, if_pos rfl]
    · have hx : x ≠ k := by
        intro hxk
        subst hxk
        exact hwf.1 (List.mem_map_of_mem (·.1) hh)
      rw [alookup_cons, if_neg hx]
      exact ih hwf.2 hh

theorem length_filter_key {α β : Type} [DecidableEq α] (m : List (α × β))
    (k : α) (hwf : (m.map (·.1)).Nodup) :
    (m.filter fun p => decide (p.1 = k)).length =
      if (alookup m k).isSome then 1 else 0 := by
  induction m with
  | nil => simp [alookup_nil]
  | cons a m ih =>
    obtain ⟨x, y⟩ := a
    rw [List.map_cons, List.nodup_cons] at hwf
    rw [List.filter_cons, alookup_cons]
    by_cases hx : x = k
    · subst hx
      have hn : alookup m x = none := by
        cases he : alookup m x
        · rfl
        · exact absurd (List.mem_map_of_mem (·.1) (alookup_eq_some_mem he))
            hwf.1
      simp [ih hwf.2, hn]
    · simp [hx, ih hwf.2]

theorem alookup_map_value {α β γ : Type} [DecidableEq α]
    (m : List (α × β)) (f : β → γ) (k : α) :
    alookup (m.map fun p => (p.1, f p.2)) k = (alookup m k).map f := by
  induction m with
  | nil => rfl
  | cons a m ih =>
    obtain ⟨x, y⟩ := a
    rw [List.map_cons, alookup_cons, alookup_cons]
    by_cases hx : x = k <;> simp [hx, ih]

theorem alookup_map_push {α β : Type} [DecidableEq α]
    (m : List (α × List β)) (k k' : α) (it : β) :
    alookup (m.map fun p => if p.1 = k then (p.1, p.2 ++ [it]) else p) k' =
      if k' = k then (alookup m k).map (· ++ [it]) else alookup m k' := by
  induction m with
  | nil => by_cases h : k' = k <;> simp [alookup_nil, h]
  | cons a m ih =>
    obtain ⟨x, y⟩ := a
    by_cases hx : x = k
    · subst hx
      by_cases hk' : k' = x
      · subst hk'; simp [alookup_cons, ih]
      · simp [alookup_cons, hk', Ne.symm hk', ih]
    · by_cases hx' : x = k'
      · subst hx'
        simp [alookup_cons, hx, Ne.symm hx]
      · simp [alookup_cons, hx, hx', ih]

theorem mem_assocSet {α β : Type} [DecidableEq α] {m : List (α × β)}
    {k : α} {v : β} {x : α × β} (hx : x ∈ assocSet m k v) :
    x ∈ m ∨ x = (k, v) := by
  unfold assocSet at hx
  split at hx
  · obtain ⟨p, hp, hpe⟩ := List.mem_map.mp hx
    by_cases h : p.1 = k
    · right; rw [← hpe]; simp [h]
    · left; rw [← hpe]; simp [h]; exact hp
  · rcases List.mem_append.mp hx with h | h
    · left; exact h
    · right; simpa using h

theorem alookup_classAppend (m : List (String × List OccurrenceItem))
    (k k' : String) (it : OccurrenceItem) :
    alookup (classAppend m k it) k' =
      if k' = k then some ((alookup m k).getD [] ++ [it])
      else alookup m k' := by
  unfold classAppend
  by_cases hs : (m.find? fun p => decide (p.1 = k)).isSome
  · rw [if_pos hs, alookup_map_push]
    rw [find_isSome_alookup] at hs
    obtain ⟨l, hl⟩ := Option.isSome_iff_exists.mp hs
    by_cases hk : k' = k <;> simp [hk, hl]
  · rw [if_neg hs]
    rw [find_isSome_alookup] at hs
    have hn : alookup m k = none := by
      cases he : alookup m k
      · rfl
      · simp [he] at hs
    rw [alookup_append_one m k k' [it] hn]
    by_cases hk : k' = k <;> simp [hk, hn]

theorem alookup_classesOf_aux (F : String) :
    ∀ (b : List (BKey × OccurrenceItem))
      (acc : List (String × List OccurrenceItem)),
      alookup (b.foldl (fun acc kv => classAppend acc kv.1.1 kv.2) acc) F =
        match alookup acc F with
        | some l => some (l ++ (entriesF F b).map (·.2))
        | none =>
          if entriesF F b = [] then none
          else some ((entriesF F b).map (·.2)) := by
  intro b
  induction b with
  | nil =>
    intro acc
    cases h : alookup acc F <;> simp [entriesF, h]
  | cons kv b ih =>
    intro acc
    rw [List.foldl_cons, ih, alookup_classAppend]
    by_cases hf : kv.1.1 = F
    · have hentry : entriesF F (kv :: b) = kv :: entriesF F b := by
        simp [entriesF, List.filter_cons, hf]
      rw [hentry]
      rw [if_pos hf.symm, hf]
      cases h : alookup acc F with
      | some l => simp
      | none => simp
    · have hentry : entriesF F (kv :: b) = entriesF F b := by
        simp [entriesF, List.filter_cons, hf]
      rw [hentry, if_neg (fun h => hf h.symm)]

theorem alookup_classesOf (F : String) (b : List (BKey × OccurrenceItem)) :
    alookup (classesOf b) F =
      if entriesF F b = [] then none
      else some ((entriesF F b).map (·.2)) := by
  have h := alookup_classesOf_aux F b []
  simpa [classesOf, alookup_nil] using h

/-! ## addFile / processDir lemmas (C1, C10) -/

theorem alookup_addFile_other (G ck : String)
    (b : List (BKey × OccurrenceItem)) (f : String) (K : BKey)
    (hK : K.1 ≠ G) :
    alookup (addFile G ck b f) K = alookup b K := by
  cases hp : parse_image_filename f with
  | none => simp [addFile, hp]
  | some parsed =>
    have hne : K ≠ (G, parsed.cell_key, parsed.region) := by
      intro h
      exact hK (congrArg Prod.fst h)
    simp only [addFile, hp]
    exact alookup_assocSet_ne _ _ _ _ hne

theorem filter_map_set_other {β : Type} (q : BKey × β → Bool)
    (m : List (BKey × β)) (k : BKey) (v : β)
    (hq : ∀ x : BKey × β, x.1 = k → q x = false) (hkv : q (k, v) = false) :
    ((m.map fun p => if p.1 = k then (k, v) else p).filter q) =
      m.filter q := by
  induction m with
  | nil => rfl
  | cons a m ih =>
    by_cases h : a.1 = k
    · rw [List.map_cons, if_pos h, List.filter_cons, List.filter_cons,
        hkv, hq a h]
      simpa using ih
    · rw [List.map_cons, if_neg h, List.filter_cons, List.filter_cons]
      cases hqa : q a <;> simp [hqa, ih]

theorem entriesF_assocSet_other (F : String)
    (b : List (BKey × OccurrenceItem)) (k : BKey) (it : OccurrenceItem)
    (hk : k.1 ≠ F) :
    entriesF F (assocSet b k it) = entriesF F b := by
  unfold assocSet
  split
  · exact filter_map_set_other _ b k it
      (fun x hx => by simp [entriesF, hx, hk]) (by simp [hk])
  · unfold entriesF
    rw [List.filter_append]
    simp [hk]

theorem entriesF_addFile_other (F G ck : String)
    (b : List (BKey × OccurrenceItem)) (f : String) (hG : G ≠ F) :
    entriesF F (addFile G ck b f) = entriesF F b := by
  cases hp : parse_image_filename f with
  | none => simp [addFile, hp]
  | some parsed =>
    simp only [addFile, hp]
    exact entriesF_assocSet_other F _ _ _ hG

theorem entriesF_foldl_addFile_other (F G ck : String) (hG : G ≠ F) :
    ∀ (gs : List String) (b : List (BKey × OccurrenceItem)),
      entriesF F (gs.foldl (addFile G ck) b) = entriesF F b := by
  intro gs
  induction gs with
  | nil => intro b; rfl
  | cons g gs ih =>
    intro b
    rw [List.foldl_cons, ih, entriesF_addFile_other F G ck b g hG]

theorem entriesF_processDir_other (F : String)
    (dir : String × List String) (hG : dir.1 ≠ F)
    (b : List (BKey × OccurrenceItem)) :
    entriesF F (processDir b dir) = entriesF F b :=
  entriesF_foldl_addFile_other F dir.1 _ hG _ b

theorem entriesF_foldl_dirs_other (F : String) :
    ∀ (l : List (String × List String)) (b : List (BKey × OccurrenceItem)),
      (∀ d ∈ l, d.1 ≠ F) →
      entriesF F (l.foldl processDir b) = entriesF F b := by
  intro l
  induction l with
  | nil => intro b _; rfl
  | cons d l ih =>
    intro b hl
    rw [List.foldl_cons, ih _ (fun e he => hl e (List.mem_cons_of_mem _ he)),
      entriesF_processDir_other F d (hl d (List.mem_cons_self _ _)) b]

theorem alookup_foldl_addFile_other (G ck : String) (K : BKey)
    (hK : K.1 ≠ G) :
    ∀ (gs : List String) (b : List (BKey × OccurrenceItem)),
      alookup (gs.foldl (addFile G ck) b) K = alookup b K := by
  intro gs
  induction gs with
  | nil => intro b; rfl
  | cons g gs ih =>
    intro b
    rw [List.foldl_cons, ih, alookup_addFile_other G ck b g K hK]

theorem alookup_foldl_dirs_other (K : BKey) :
    ∀ (l : List (String × List String)) (b : List (BKey × OccurrenceItem)),
      (∀ d ∈ l, d.1 ≠ K.1) →
      alookup (l.foldl processDir b) K = alookup b K := by
  intro l
  induction l with
  | nil => intro b _; rfl
  | cons d l ih =>
    intro b hl
    rw [List.foldl_cons, ih _ (fun e he => hl e (List.mem_cons_of_mem _ he))]
    exact alookup_foldl_addFile_other d.1 _ K
      (fun h => hl d (List.mem_cons_self _ _) h.symm) (globJpg d.2) b

theorem srcSome_addFile_mono (F ck : String)
    (b : List (BKey × OccurrenceItem)) (f : String) (K : BKey)
    (h : ∃ it, alookup b K = some it ∧ it.source_path.isSome = true) :
    ∃ it, alookup (addFile F ck b f) K = some it ∧
      it.source_path.isSome = true := by
  obtain ⟨it, hit, hsome⟩ := h
  cases hp : parse_image_filename f with
  | none => exact ⟨it, by simpa [addFile, hp] using hit, hsome⟩
  | some parsed =>
    by_cases hk : (F, parsed.cell_key, parsed.region) = K
    · subst hk
      simp only [addFile, hp, hit]
      refine ⟨_, alookup_assocSet_self _ _ _, ?_⟩
      by_cases hmt : parsed.map_type = "SourceMap"
      · simp [hmt]
      · by_cases hmt2 : parsed.map_type = "ActiveMap" <;>
          simp [hmt, hmt2, hsome]
    · refine ⟨it, ?_, hsome⟩
      simp only [addFile, hp]
      rw [alookup_assocSet_ne _ _ _ _ (fun h => hk h.symm)]
      exact hit

theorem actSome_addFile_mono (F ck : String)
    (b : List (BKey × OccurrenceItem)) (f : String) (K : BKey)
    (h : ∃ it, alookup b K = some it ∧ it.active_path.isSome = true) :
    ∃ it, alookup (addFile F ck b f) K = some it ∧
      it.active_path.isSome = true := by
  obtain ⟨it, hit, hsome⟩ := h
  cases hp : parse_image_filename f with
  | none => exact ⟨it, by simpa [addFile, hp] using hit, hsome⟩
  | some parsed =>
    by_cases hk : (F, parsed.cell_key, parsed.region) = K
    · subst hk
      simp only [addFile, hp, hit]
      refine ⟨_, alookup_assocSet_self _ _ _, ?_⟩
      by_cases hmt : parsed.map_type = "SourceMap"
      · simp [hmt, hsome]
      · by_cases hmt2 : parsed.map_type = "ActiveMap" <;>
          simp [hmt, hmt2, hsome]
    · refine ⟨it, ?_, hsome⟩
      simp only [addFile, hp]
      rw [alookup_assocSet_ne _ _ _ _ (fun h => hk h.symm)]
      exact hit

theorem srcSome_addFile_set (F ck : String)
    (b : List (BKey × OccurrenceItem)) (f c r : String)
    (hp : parse_image_filename f = some ⟨c, r, "SourceMap"⟩) :
    ∃ it, alookup (addFile F ck b f) (F, c, r) = some it ∧
      it.source_path.isSome = true := by
  simp only [addFile, hp]
  exact ⟨_, alookup_assocSet_self _ _ _, by simp⟩

theorem actSome_addFile_set (F ck : String)
    (b : List (BKey × OccurrenceItem)) (f c r : String)
    (hp : parse_image_filename f = some ⟨c, r, "ActiveMap"⟩) :
    ∃ it, alookup (addFile F ck b f) (F, c, r) = some it ∧
      it.active_path.isSome = true := by
  simp only [addFile, hp]
  exact ⟨_, alookup_assocSet_self _ _ _, by simp⟩

theorem srcSome_foldl_mono (F ck : String) (K : BKey) :
    ∀ (gs : List String) (b : List (BKey × OccurrenceItem)),
      (∃ it, alookup b K = some it ∧ it.source_path.isSome = true) →
      ∃ it, alookup (gs.foldl (addFile F ck) b) K = some it ∧
        it.source_path.isSome = true := by
  intro gs
  induction gs with
  | nil => intro b h; exact h
  | cons g gs ih =>
    intro b h
    rw [List.foldl_cons]
    exact ih _ (srcSome_addFile_mono F ck b g K h)

theorem actSome_foldl_mono (F ck : String) (K : BKey) :
    ∀ (gs : List String) (b : List (BKey × OccurrenceItem)),
      (∃ it, alookup b K = some it ∧ it.active_path.isSome = true) →
      ∃ it, alookup (gs.foldl (addFile F ck) b) K = some it ∧
        it.active_path.isSome = true := by
  intro gs
  induction gs with
  | nil => intro b h; exact h
  | cons g gs ih =>
    intro b h
    rw [List.foldl_cons]
    exact ih _ (actSome_addFile_mono F ck b g K h)

theorem srcSome_foldl_establish (F ck c r : String) :
    ∀ (gs : List String) (b : List (BKey × OccurrenceItem)) (f : String),
      f ∈ gs → parse_image_filename f = some ⟨c, r, "SourceMap"⟩ →
      ∃ it, alookup (gs.foldl (addFile F ck) b) (F, c, r) = some it ∧
        it.source_path.isSome = true := by
  intro gs
  induction gs with
  | nil => intro b f hf; simp at hf
  | cons g gs ih =>
    intro b f hf hp
    rw [List.foldl_cons]
    rcases List.mem_cons.mp hf with rfl | hf'
    · exact srcSome_foldl_mono F ck (F, c, r) gs _
        (srcSome_addFile_set F ck b f c r hp)
    · exact ih _ f hf' hp

theorem actSome_foldl_establish (F ck c r : String) :
    ∀ (gs : List String) (b : List (BKey × OccurrenceItem)) (f : String),
      f ∈ gs → parse_image_filename f = some ⟨c, r, "ActiveMap"⟩ →
      ∃ it, alookup (gs.foldl (addFile F ck) b) (F, c, r) = some it ∧
        it.active_path.isSome = true := by
  intro gs
  induction gs with
  | nil => intro b f hf; simp at hf
  | cons g gs ih =>
    intro b f hf hp
    rw [List.foldl_cons]
    rcases List.mem_cons.mp hf with rfl | hf'
    · exact actSome_foldl_mono F ck (F, c, r) gs _
        (actSome_addFile_set F ck b f c r hp)
    · exact ih _ f hf' hp

/-! ## Bucket invariants (C1, C10) -/

theorem bucketWF_addFile (G ck : String) (b : List (BKey × OccurrenceItem))
    (f : String) (h : bucketWF b) : bucketWF (addFile G ck b f) := by
  cases hp : parse_image_filename f with
  | none => simpa [addFile, hp] using h
  | some parsed =>
    simp only [addFile, hp]
    exact wf_assocSet _ _ _ h

theorem bucketOK_addFile (G ck : String) (b : List (BKey × OccurrenceItem))
    (f : String) (h : bucketOK b) : bucketOK (addFile G ck b f) := by
  cases hp : parse_image_filename f with
  | none => simpa [addFile, hp] using h
  | some parsed =>
    simp only [addFile, hp]
    intro kv hkv
    rcases mem_assocSet hkv with hm | he
    · exact h kv hm
    · subst he
      have hbase : ∀ it0, (match alookup b (G, parsed.cell_key, parsed.region)
            with
          | some it => it
          | none =>
            { class_folder := G, class_key := ck,
              cell_key := parsed.cell_key, region := parsed.region }) = it0 →
          it0.class_folder = G ∧ it0.cell_key = parsed.cell_key ∧
            it0.region = parsed.region := by
        intro it0 hit0
        cases hb : alookup b (G, parsed.cell_key, parsed.region) with
        | some itb =>
          rw [hb] at hit0
          subst hit0
          exact h _ (alookup_eq_some_mem hb)
        | none =>
          rw [hb] at hit0
          subst hit0
          exact ⟨rfl, rfl, rfl⟩
      obtain ⟨h1, h2, h3⟩ := hbase _ rfl
      by_cases hmt : parsed.map_type = "SourceMap"
      · simp [hmt, h1, h2, h3]
      · by_cases hmt2 : parsed.map_type = "ActiveMap" <;>
          simp [hmt, hmt2, h1, h2, h3]

theorem bucketJpg_addFile (G ck : String)
    (b : List (BKey × OccurrenceItem)) (f : String)
    (hf : pyEndsWith f ".jpg" = true) (h : bucketJpg b) :
    bucketJpg (addFile G ck b f) := by
  cases hp : parse_image_filename f with
  | none => simpa [addFile, hp] using h
  | some parsed =>
    simp only [addFile, hp]
    intro kv hkv
    rcases mem_assocSet hkv with hm | he
    · exact h kv hm
    · subst he
      have hbase : ∀ it0, (match alookup b (G, parsed.cell_key, parsed.region)
            with
          | some it => it
          | none =>
            { class_folder := G, class_key := ck,
              cell_key := parsed.cell_key, region := parsed.region }) = it0 →
          (∀ p, it0.source_path = some p → pyEndsWith p ".jpg" = true) ∧
          (∀ p, it0.active_path = some p → pyEndsWith p ".jpg" = true) := by
        intro it0 hit0
        cases hb : alookup b (G, parsed.cell_key, parsed.region) with
        | some itb =>
          rw [hb] at hit0
          subst hit0
          exact h _ (alookup_eq_some_mem hb)
        | none =>
          rw [hb] at hit0
          subst hit0
          constructor <;> intro p hp' <;> simp at hp'
      obtain ⟨h1, h2⟩ := hbase _ rfl
      by_cases hmt : parsed.map_type = "SourceMap"
      · constructor <;> intro p hp'
        · simp [hmt] at hp'
          subst hp'
          exact hf
        · simp [hmt] at hp'
          exact h2 p hp'
      · by_cases hmt2 : parsed.map_type = "ActiveMap"
        · constructor <;> intro p hp'
          · simp [hmt, hmt2] at hp'
            exact h1 p hp'
          · simp [hmt, hmt2] at hp'
            subst hp'
            exact hf
        · constructor <;> intro p hp'
          · simp [hmt, hmt2] at hp'
            exact h1 p hp'
          · simp [hmt, hmt2] at hp'
            exact h2 p hp'

theorem bucketWF_foldl_addFile (G ck : String) :
    ∀ (gs : List String) (b : List (BKey × OccurrenceItem)),
      bucketWF b → bucketWF (gs.foldl (addFile G ck) b) := by
  intro gs
  induction gs with
  | nil => intro b h; exact h
  | cons g gs ih =>
    intro b h
    rw [List.foldl_cons]
    exact ih _ (bucketWF_addFile G ck b g h)

theorem bucketOK_foldl_addFile (G ck : String) :
    ∀ (gs : List String) (b : List (BKey × OccurrenceItem)),
      bucketOK b → bucketOK (gs.foldl (addFile G ck) b) := by
  intro gs
  induction gs with
  | nil => intro b h; exact h
  | cons g gs ih =>
    intro b h
    rw [List.foldl_cons]
    exact ih _ (bucketOK_addFile G ck b g h)

theorem bucketJpg_foldl_addFile (G ck : String) :
    ∀ (gs : List String) (b : List (BKey × OccurrenceItem)),
      (∀ f ∈ gs, pyEndsWith f ".jpg" = true) →
      bucketJpg b → bucketJpg (gs.foldl (addFile G ck) b) := by
  intro gs
  induction gs with
  | nil => intro b _ h; exact h
  | cons g gs ih =>
    intro b hgs h
    rw [List.foldl_cons]
    exact ih _ (fun f hf => hgs f (List.mem_cons_of_mem _ hf))
      (bucketJpg_addFile G ck b g (hgs g (List.mem_cons_self _ _)) h)

theorem bucketWF_processDir (b : List (BKey × OccurrenceItem))
    (dir : String × List String) (h : bucketWF b) :
    bucketWF (processDir b dir) :=
  bucketWF_foldl_addFile dir.1 _ (globJpg dir.2) b h

theorem bucketOK_processDir (b : List (BKey × OccurrenceItem))
    (dir : String × List String) (h : bucketOK b) :
    bucketOK (processDir b dir) :=
  bucketOK_foldl_addFile dir.1 _ (globJpg dir.2) b h

theorem bucketJpg_processDir (b : List (BKey × OccurrenceItem))
    (dir : String × List String) (h : bucketJpg b) :
    bucketJpg (processDir b dir) :=
  bucketJpg_foldl_addFile dir.1 _ (globJpg dir.2) b
    (fun _ hf => (List.mem_filter.mp hf).2) h

theorem bucketWF_foldl_dirs :
    ∀ (l : List (String × List String)) (b : List (BKey × OccurrenceItem)),
      bucketWF b → bucketWF (l.foldl processDir b) := by
  intro l
  induction l with
  | nil => intro b h; exact h
  | cons d l ih =>
    intro b h
    rw [List.foldl_cons]
    exact ih _ (bucketWF_processDir b d h)

theorem bucketOK_foldl_dirs :
    ∀ (l : List (String × List String)) (b : List (BKey × OccurrenceItem)),
      bucketOK b → bucketOK (l.foldl processDir b) := by
  intro l
  induction l with
  | nil => intro b h; exact h
  | cons d l ih =>
    intro b h
    rw [List.foldl_cons]
    exact ih _ (bucketOK_processDir b d h)

theorem bucketJpg_foldl_dirs :
    ∀ (l : List (String × List String)) (b : List (BKey × OccurrenceItem)),
      bucketJpg b → bucketJpg (l.foldl processDir b) := by
  intro l
  induction l with
  | nil => intro b h; exact h
  | cons d l ih =>
    intro b h
    rw [List.foldl_cons]
    exact ih _ (bucketJpg_processDir b d h)

/-! ## C1 and C10 -/

theorem length_filter_entries (F c r : String) :
    ∀ (b : List (BKey × OccurrenceItem)), bucketOK b →
      (((entriesF F b).map (·.2)).filter
        (fun it => decide (it.cell_key = c ∧ it.region = r))).length =
      (b.filter fun kv => decide (kv.1 = ((F, c, r) : BKey))).length := by
  intro b
  induction b with
  | nil => intro _; rfl
  | cons kv b ih =>
    intro hok
    have hok' : bucketOK b := fun x hx => hok x (List.mem_cons_of_mem _ hx)
    obtain ⟨h1, h2, h3⟩ := hok kv (List.mem_cons_self _ _)
    have ihb := ih hok'
    by_cases hf : kv.1.1 = F
    · have e1 : entriesF F (kv :: b) = kv :: entriesF F b := by
        simp [entriesF, List.filter_cons, hf]
      rw [e1, List.map_cons, List.filter_cons, List.filter_cons]
      by_cases hit : kv.2.cell_key = c ∧ kv.2.region = r
      · have hkey : kv.1 = ((F, c, r) : BKey) :=
          Prod.ext_iff.mpr ⟨hf,
            Prod.ext_iff.mpr ⟨h2.symm.trans hit.1, h3.symm.trans hit.2⟩⟩
        rw [if_pos (show decide (kv.2.cell_key = c ∧ kv.2.region = r) = true
            by simp [hit.1, hit.2]),
          if_pos (show decide (kv.1 = ((F, c, r) : BKey)) = true
            by simp [hkey]),
          List.length_cons, List.length_cons, ihb]
      · have hkey : kv.1 ≠ ((F, c, r) : BKey) := by
          intro he
          exact hit ⟨h2.trans (congrArg (·.2.1) he),
            h3.trans (congrArg (·.2.2) he)⟩
        rw [if_neg (show ¬decide (kv.2.cell_key = c ∧ kv.2.region = r) = true
            by simpa using hit),
          if_neg (show ¬decide (kv.1 = ((F, c, r) : BKey)) = true
            by simpa using hkey)]
        exact ihb
    · have e1 : entriesF F (kv :: b) = entriesF F b := by
        simp [entriesF, List.filter_cons, hf]
      have hkey : kv.1 ≠ ((F, c, r) : BKey) := fun he =>
        hf (congrArg (·.1) he)
      rw [e1, List.filter_cons,
        if_neg (show ¬decide (kv.1 = ((F, c, r) : BKey)) = true
          by simpa using hkey)]
      exact ihb

/-- C1: for every (class folder, identity key, region) triple with both a
SourceMap and an ActiveMap `.jpg` file present among the folder's entries,
the built `ViewIndex` holds exactly one `OccurrenceItem` for that triple in
that folder's list, with both artifact paths populated — for every on-disk
listing order of the folders and of the files (the listing orders are
universally quantified). -/
theorem C1_both_kinds_single_item (dirs : List (String × List String))
    (F : String) (files : List String) (c r : String)
    (hnodup : (dirs.map Prod.fst).Nodup)
    (hmem : (F, files) ∈ dirs)
    (hsrc : ∃ f ∈ files, pyEndsWith f ".jpg" = true ∧
      parse_image_filename f = some ⟨c, r, "SourceMap"⟩)
    (hact : ∃ g ∈ files, pyEndsWith g ".jpg" = true ∧
      parse_image_filename g = some ⟨c, r, "ActiveMap"⟩) :
    ∃ items, alookup (build_view_index dirs).classes F = some items ∧
      (items.filter fun it =>
        decide (it.cell_key = c ∧ it.region = r)).length = 1 ∧
      ∀ it ∈ items, it.cell_key = c → it.region = r →
        it.class_folder = F ∧ it.source_path.isSome = true ∧
          it.active_path.isSome = true := by
  have hperm : List.Perm (sortDirs dirs) dirs := List.perm_insertionSort _ dirs
  have hmemS : (F, files) ∈ sortDirs dirs := hperm.mem_iff.mpr hmem
  have hnodupS : ((sortDirs dirs).map Prod.fst).Nodup :=
    ((hperm.map Prod.fst).nodup_iff).mpr hnodup
  obtain ⟨l1, l2, hdec⟩ := List.append_of_mem hmemS
  rw [hdec] at hnodupS
  simp only [List.map_append, List.map_cons] at hnodupS
  obtain ⟨hn1, hn2, hdisj⟩ := List.nodup_append.mp hnodupS
  have hF2 : F ∉ l2.map Prod.fst := (List.nodup_cons.mp hn2).1
  have hF1 : F ∉ l1.map Prod.fst :=
    fun h => (hdisj h) (List.mem_cons_self _ _)
  have hl1 : ∀ d ∈ l1, d.1 ≠ F := fun d hd he =>
    hF1 (he ▸ List.mem_map_of_mem Prod.fst hd)
  have hl2 : ∀ d ∈ l2, d.1 ≠ F := fun d hd he =>
    hF2 (he ▸ List.mem_map_of_mem Prod.fst hd)
  have hbb : buildBucket (sortDirs dirs) =
      l2.foldl processDir (processDir (l1.foldl processDir []) (F, files)) := by
    rw [buildBucket, hdec, List.foldl_append, List.foldl_cons]
  set b1 : List (BKey × OccurrenceItem) := l1.foldl processDir [] with hb1
  set b2 : List (BKey × OccurrenceItem) := processDir b1 (F, files) with hb2
  set b3 : List (BKey × OccurrenceItem) := l2.foldl processDir b2 with hb3
  set K : BKey := (F, c, r) with hK
  have hb3K : alookup b3 K = alookup b2 K :=
    alookup_foldl_dirs_other K l2 b2 hl2
  obtain ⟨f, hfmem, hfjpg, hfparse⟩ := hsrc
  obtain ⟨g, hgmem, hgjpg, hgparse⟩ := hact
  obtain ⟨itS, hitS, hSsome⟩ := srcSome_foldl_establish F
    (normalize_class_folder F) c r (globJpg files) b1 f
    (List.mem_filter.mpr ⟨hfmem, hfjpg⟩) hfparse
  obtain ⟨itA, hitA, hAsome⟩ := actSome_foldl_establish F
    (normalize_class_folder F) c r (globJpg files) b1 g
    (List.mem_filter.mpr ⟨hgmem, hgjpg⟩) hgparse
  have hitS2 : alookup b2 K = some itS := hitS
  have hitA2 : alookup b2 K = some itA := hitA
  obtain rfl : itS = itA := Option.some.inj (hitS2.symm.trans hitA2)
  have hwf3 : bucketWF b3 :=
    bucketWF_foldl_dirs l2 b2 (bucketWF_processDir b1 (F, files)
      (bucketWF_foldl_dirs l1 [] List.nodup_nil))
  have hok3 : bucketOK b3 :=
    bucketOK_foldl_dirs l2 b2 (bucketOK_processDir b1 (F, files)
      (bucketOK_foldl_dirs l1 [] (fun kv h => absurd h (List.not_mem_nil kv))))
  have hlook3 : alookup b3 K = some itS := hb3K.trans hitS2
  have hmemE : (K, itS) ∈ entriesF F b3 :=
    List.mem_filter.mpr ⟨alookup_eq_some_mem hlook3, by simp [hK]⟩
  have hne : entriesF F b3 ≠ [] := List.ne_nil_of_mem hmemE
  have hclasses : alookup (build_view_index dirs).classes F =
      some (sortItems ((entriesF F b3).map (·.2))) := by
    simp only [build_view_index]
    rw [alookup_map_value, hbb, alookup_classesOf, if_neg hne]
    rfl
  refine ⟨sortItems ((entriesF F b3).map (·.2)), hclasses, ?_, ?_⟩
  · have hpermIt : List.Perm (sortItems ((entriesF F b3).map (·.2)))
        ((entriesF F b3).map (·.2)) := List.perm_insertionSort _ _
    rw [(List.Perm.filter _ hpermIt).length_eq,
      length_filter_entries F c r b3 hok3, length_filter_key b3 K hwf3,
      hlook3]
    rfl
  · intro it hit hc hr
    have hit0 : it ∈ (entriesF F b3).map (·.2) :=
      (List.perm_insertionSort _ _).mem_iff.mp hit
    obtain ⟨kv, hkvE, hkv2⟩ := List.mem_map.mp hit0
    have hkvb : kv ∈ b3 := (List.mem_filter.mp hkvE).1
    have hkvF : kv.1.1 = F := by
      have := (List.mem_filter.mp hkvE).2
      simpa using this
    obtain ⟨ho1, ho2, ho3⟩ := hok3 kv hkvb
    have hkey : kv.1 = K := by
      rw [hK]
      exact Prod.ext_iff.mpr ⟨hkvF,
        Prod.ext_iff.mpr ⟨ho2.symm.trans (hkv2 ▸ hc),
          ho3.symm.trans (hkv2 ▸ hr)⟩⟩
    have hkv' : (K, kv.2) ∈ b3 := by
      rw [← hkey]
      exact hkvb
    have : alookup b3 K = some kv.2 := mem_alookup_of_wf hwf3 hkv'
    obtain rfl : kv.2 = itS := Option.some.inj (this.symm.trans hlook3)
    refine ⟨?_, ?_, ?_⟩
    · rw [← hkv2, ho1, hkvF]
    · rw [← hkv2]; exact hSsome
    · rw [← hkv2]; exact hAsome

/-- Witness for `C1_both_kinds_single_item`: one folder with a paired
SourceMap/ActiveMap couple. -/
theorem C1_both_kinds_single_item_witness :
    ∃ items, alookup (build_view_index
        [("05_NG", ["A_LOWER_B_L_SourceMap.jpg",
          "A_LOWER_B_L_ActiveMap.jpg"])]).classes "05_NG" = some items ∧
      (items.filter fun it =>
        decide (it.cell_key = "A" ∧ it.region = "LOWER_B_L")).length = 1 ∧
      ∀ it ∈ items, it.cell_key = "A" → it.region = "LOWER_B_L" →
        it.class_folder = "05_NG" ∧ it.source_path.isSome = true ∧
          it.active_path.isSome = true :=
  C1_both_kinds_single_item
    [("05_NG", ["A_LOWER_B_L_SourceMap.jpg", "A_LOWER_B_L_ActiveMap.jpg"])]
    "05_NG" ["A_LOWER_B_L_SourceMap.jpg", "A_LOWER_B_L_ActiveMap.jpg"]
    "A" "LOWER_B_L" (by decide) (by decide)
    ⟨"A_LOWER_B_L_SourceMap.jpg", by decide, by decide, by decide⟩
    ⟨"A_LOWER_B_L_ActiveMap.jpg", by decide, by decide, by decide⟩

/-- C10: every artifact path stored in a built `ViewIndex` ends in `.jpg`
(the builder only globs `*.jpg`), even though `parse_image_filename` itself
also accepts `.png` (and `.jpeg`) filenames. -/
theorem C10_only_jpg_indexed (dirs : List (String × List String))
    (F : String) (items : List OccurrenceItem) (it : OccurrenceItem)
    (h1 : alookup (build_view_index dirs).classes F = some items)
    (h2 : it ∈ items) :
    (∀ p, it.source_path = some p → pyEndsWith p ".jpg" = true) ∧
    (∀ p, it.active_path = some p → pyEndsWith p ".jpg" = true) ∧
    (parse_image_filename "A_LOWER_B_L_SourceMap.png").isSome = true := by
  simp only [build_view_index] at h1
  rw [alookup_map_value] at h1
  cases hco : alookup (classesOf (buildBucket (sortDirs dirs))) F with
  | none => rw [hco] at h1; simp at h1
  | some l =>
    rw [hco] at h1
    have hitems : items = sortItems l := by
      have := h1
      simp only [Option.map_some'] at this
      exact (Option.some.inj this).symm
    rw [alookup_classesOf] at hco
    by_cases hne : entriesF F (buildBucket (sortDirs dirs)) = []
    · rw [if_pos hne] at hco
      exact absurd hco (by simp)
    · rw [if_neg hne] at hco
      have hl : l = (entriesF F (buildBucket (sortDirs dirs))).map (·.2) :=
        (Option.some.inj hco).symm
      have hitl : it ∈ l := by
        rw [hitems] at h2
        exact (List.perm_insertionSort _ _).mem_iff.mp h2
      rw [hl] at hitl
      obtain ⟨kv, hkvE, hkv2⟩ := List.mem_map.mp hitl
      have hkvb : kv ∈ buildBucket (sortDirs dirs) :=
        (List.mem_filter.mp hkvE).1
      have hjpg : bucketJpg (buildBucket (sortDirs dirs)) :=
        bucketJpg_foldl_dirs (sortDirs dirs) []
          (fun kv h => absurd h (List.not_mem_nil kv))
      obtain ⟨hs, ha⟩ := hjpg kv hkvb
      exact ⟨by rw [← hkv2]; exact hs, by rw [← hkv2]; exact ha, by decide⟩

/-- Witness for `C10_only_jpg_indexed` at a one-folder listing (a `.png`
sibling is ignored by the glob). -/
theorem C10_only_jpg_indexed_witness :
    (∀ p, (⟨"05_NG", "NG", "A", "LOWER_B_L",
        some "A_LOWER_B_L_SourceMap.jpg", none⟩ :
        OccurrenceItem).source_path = some p →
      pyEndsWith p ".jpg" = true) ∧
    (∀ p, (⟨"05_NG", "NG", "A", "LOWER_B_L",
        some "A_LOWER_B_L_SourceMap.jpg", none⟩ :
        OccurrenceItem).active_path = some p →
      pyEndsWith p ".jpg" = true) ∧
    (parse_image_filename "A_LOWER_B_L_SourceMap.png").isSome = true :=
  C10_only_jpg_indexed
    [("05_NG", ["A_LOWER_B_L_SourceMap.jpg", "B_LOWER_B_L_SourceMap.png"])]
    "05_NG"
    [⟨"05_NG", "NG", "A", "LOWER_B_L",
      some "A_LOWER_B_L_SourceMap.jpg", none⟩]
    ⟨"05_NG", "NG", "A", "LOWER_B_L",
      some "A_LOWER_B_L_SourceMap.jpg", none⟩
    (by decide) (by decide)

end MavinFetcher
